import Mathlib

/-!
Shallow embedding of the scene-graph generation and consistency engine of
`backend/vn_generator.py`, together with proofs settling the frozen claims
about it.

Modelling conventions, used throughout:

* Python dicts carrying a fixed shape (scenes, dialogue entries, choices,
  scene outlines, book-analysis records) become Lean structures whose fields
  follow the data model of the module; a key that the code treats as
  optional (tested with `"k" in d` or read with `.get`) becomes an `Option`
  field.
* The process-wide `STORY_CACHE` becomes an explicit `Store` value threaded
  through every call.  `generated_scenes` and `scene_graph` are Python
  dicts, modelled as insertion-ordered association lists (`dictInsert`
  overwrites in place, preserving the position of an existing key, exactly
  like Python dict assignment); `in_progress_scenes` is a Python set,
  modelled as a duplicate-free list.
* Calls into the Gemini / network backends are oracled: each embedded
  function that performs such a call takes an extra argument describing the
  outcome of the call (the parsed value on success, or which failure
  occurred), and each call to `random.randint` takes the drawn value as an
  argument.  Everything after the call site is translated from the source.
* Python set iteration order is unspecified; it is modelled as
  first-occurrence order.  No theorem below depends on this order.
-/

/-- Python exceptions that the translated code can raise. -/
inductive PyErr where
  | keyError (k : String)
  | stopIter
  deriving Repr, DecidableEq

deriving instance DecidableEq for Except

/-- `{text, nextScene}` (§3 of the module's data model). -/
structure Choice where
  text : String
  nextScene : String
  deriving Repr, DecidableEq

/-- `{speaker, text, character?, choices?}`: a single dialogue line.  The
`character` and `choices` keys are optional in the source (`"choices" in
dialogue` tests), hence `Option` fields; a present-but-`None` `character`
key and an absent one are both `none`. -/
structure DialogueEntry where
  speaker : String
  text : String
  characterId : Option String := none
  choices : Option (List Choice) := none
  deriving Repr, DecidableEq

/-- An entry of a scene's `characters` list: `{id, image}`. -/
structure SceneChar where
  id : String
  image : String
  deriving Repr, DecidableEq

/-- A full scene `{id, background, characters, dialogue}`; `generated_with`
is the optional provenance tag some paths attach. -/
structure Scene where
  id : String
  background : String
  characters : List SceneChar
  dialogue : List DialogueEntry
  generatedWith : Option String := none
  deriving Repr, DecidableEq

/-- The script document `{title, scenes}` (generation_info is not modelled:
no claim mentions it). -/
structure Script where
  title : String
  scenes : List Scene
  deriving Repr, DecidableEq

/-- A scene outline produced by the outline planner (§3). -/
structure SceneOutline where
  id : String
  description : String
  characters : List String
  setting : String
  atmosphere : String
  dialogueCount : Nat
  connectsTo : List String
  deriving Repr, DecidableEq

/-- An outline document: `{"scenes": [...]}`. -/
structure Outline where
  scenes : List SceneOutline
  deriving Repr, DecidableEq

/-- A character record of the book analysis.  The code reads `id` with
`.get` (it may be absent) and `name` by subscripting after `.get("name")`,
so `id` is optional and `name` required. -/
structure BookChar where
  id : Option String := none
  name : String
  description : String := ""
  deriving Repr, DecidableEq

/-- The opaque book-analysis input.  Only the keys the embedded functions
actually read are modelled: `metadata` (a dict, optional: the planner
subscripts it and can raise `KeyError`) and `characters`. -/
structure BookAnalysis where
  metadata : Option (List (String × String)) := none
  characters : List BookChar := []
  deriving Repr, DecidableEq

/-! ### Dict / set primitives (Python semantics) -/

/-- Python `d[k]` read returning `none` when absent; first binding wins. -/
def dictLookup {α : Type} (d : List (String × α)) (k : String) : Option α :=
  (d.find? (fun p => p.1 == k)).map (·.2)

/-- Python `d[k] = v`: overwrite in place when the key exists (keeping its
position), append otherwise. -/
def dictInsert {α : Type} (d : List (String × α)) (k : String) (v : α) :
    List (String × α) :=
  if (d.find? (fun p => p.1 == k)).isSome then
    d.map (fun p => if p.1 == k then (p.1, v) else p)
  else
    d ++ [(k, v)]

/-- Python `s.add(x)` on a set. -/
def addMem (l : List String) (x : String) : List String :=
  if l.contains x then l else l ++ [x]

/-- Python `s.remove(x)` / `discard` on a set (the element is present at
every call site that reaches it in the modelled paths). -/
def removeMem (l : List String) (x : String) : List String :=
  l.filter (fun y => y != x)

/-- Python `sub in hay` on lists of characters. -/
def startsWithL : List Char → List Char → Bool
  | [], _ => true
  | _ :: _, [] => false
  | a :: as, b :: bs => a == b && startsWithL as bs

/-- Helper for `strContainsSub`: does `hay` contain `sub` as a contiguous
sublist? -/
def hasSubL (sub : List Char) : List Char → Bool
  | [] => sub.isEmpty
  | b :: t => startsWithL sub (b :: t) || hasSubL sub t

/-- Python substring test `sub in hay`. -/
def strContainsSub (hay sub : String) : Bool :=
  hasSubL sub.data hay.data

/-! ### `create_placeholder_scene` (vn_generator.py lines 982-1060) -/

/-- The character lookup the placeholder builder performs for each outline
character id: first book-analysis character whose `id` equals it or whose
`name` equals it case-insensitively. -/
def lookupChar (ba : BookAnalysis) (cid : String) : Option BookChar :=
  ba.characters.find?
    (fun c => c.id == some cid || c.name.toLower == cid.toLower)

/-- `create_placeholder_scene(scene_id, scene_outline, book_analysis)`:
the deterministic fallback scene built when generation fails. -/
def create_placeholder_scene (sceneId : String) (o : SceneOutline)
    (ba : BookAnalysis) : Scene :=
  let found := o.characters.filterMap (fun cid =>
    (lookupChar ba cid).map (fun c =>
      ({ id := c.id.getD cid,
         image := "A character representing " ++ c.name } : SceneChar)))
  let characters :=
    if found.isEmpty then
      [({ id := "character", image := "A person relevant to this scene" } : SceneChar)]
    else found
  let dialogue0 : List DialogueEntry :=
    [ { speaker := "Narrator", text := o.setting ++ ". " ++ o.atmosphere ++ "." },
      { speaker := "Narrator", text := o.description } ]
  -- `if characters:` in the source; the list is never empty at this point,
  -- the branch is kept to mirror the code.
  let dialogue1 :=
    if characters.isEmpty then dialogue0
    else
      dialogue0 ++
        [ { speaker := (characters.headD { id := "Character", image := "" }).id,
            text := "We need to proceed carefully in this situation.",
            characterId := some (characters.headD { id := "Character", image := "" }).id } ]
  let choices := o.connectsTo.map (fun conn =>
    ({ text := "Continue to " ++ conn, nextScene := conn } : Choice))
  let choices :=
    if choices.isEmpty then
      [({ text := "Continue", nextScene := "scene_next" } : Choice)]
    else choices
  let dialogue := dialogue1 ++
    [ { speaker := "Narrator", text := "What will you do next?",
        choices := some choices } ]
  { id := sceneId, background := o.setting, characters := characters,
    dialogue := dialogue }

/-! ### The outline planner (vn_generator.py lines 255-448) -/

/-- Outcome of the planner's Gemini call followed by the code-block
extraction, `json.loads`, and the single `attempt_json_repair` retry:
`parsed o` when one of the two parses yields `o`; `unparseable` when both
raise; `backendError` for any exception out of the model call itself. -/
inductive PlannerOutcome where
  | parsed (o : Outline)
  | unparseable
  | backendError
  deriving Repr, DecidableEq

/-- The fixed fallback outline returned from the planner's `except` arm
(vn_generator.py lines 427-448). -/
def fallbackOutline : Outline :=
  { scenes :=
      [ { id := "scene_1",
          description := "Introduction to the story and main characters",
          characters := ["protagonist"],
          setting := "The main setting of the story",
          atmosphere := "Establishes the tone of the narrative",
          dialogueCount := 8,
          connectsTo := ["scene_2a", "scene_2b"] },
        { id := "scene_2a",
          description := "The protagonist takes an active approach",
          characters := ["protagonist", "supporting"],
          setting := "A location that presents challenges",
          atmosphere := "Tense and action-oriented",
          dialogueCount := 7,
          connectsTo := ["scene_3"] } ] }

/-- `generate_script_outline_with_gemini(book_analysis, scene_limit)`.
The prompt is assembled before the `try` block; the only subscript there
that can raise is `book_analysis['metadata']` (every other read uses
`.get` with a default), so a missing `metadata` key raises `KeyError`
before any exception handler is installed.  Inside the `try`, any error or
unrepairable output falls to the fixed fallback; a successful parse is
returned unchanged — `scene_limit` only appears in the prompt text and is
never applied to the result. -/
def generate_script_outline_with_gemini (ba : BookAnalysis)
    (oc : PlannerOutcome) (_sceneLimit : Nat) : Except PyErr Outline :=
  match ba.metadata with
  | none => .error (.keyError "metadata")
  | some _ =>
    match oc with
    | .parsed o => .ok o
    | .unparseable => .ok fallbackOutline
    | .backendError => .ok fallbackOutline

/-! ### The generation cache and the scene synthesizer
(vn_generator.py lines 592-791) -/

/-- An outgoing edge of the scene graph: `{target, text}`. -/
structure GraphEdgeOut where
  target : String
  text : String
  deriving Repr, DecidableEq

/-- An incoming edge of the scene graph: `{source, text}`. -/
structure GraphEdgeIn where
  source : String
  text : String
  deriving Repr, DecidableEq

/-- One scene's adjacency record: `{outgoing, incoming}`. -/
structure GraphEntry where
  outgoing : List GraphEdgeOut := []
  incoming : List GraphEdgeIn := []
  deriving Repr, DecidableEq

/-- The process-wide `STORY_CACHE`, made explicit: `generated_scenes`,
`in_progress_scenes` and `scene_graph` (`book_analysis` is passed to the
functions that read it). -/
structure Store where
  scenes : List (String × Scene) := []
  inProgress : List String := []
  sceneGraph : List (String × GraphEntry) := []
  deriving Repr, DecidableEq

/-- Outcome of the synthesizer's Gemini call, code-block extraction and
JSON parse: `parsed sc` when `json.loads` (directly or after the repair
pass) yields `sc`; `parseFail` when it cannot be repaired; `exn` for any
exception raised inside the `try` block. -/
inductive GenOutcome where
  | parsed (sc : Scene)
  | parseFail
  | exn
  deriving Repr, DecidableEq

/-- `generate_scene_from_outline_with_gemini(scene_outline, book_analysis)`
under sequential (single in-flight call) semantics.  Returns the produced
scene, the final cache, and the trace of cache states after each cache
operation the call performs, in order.

Paths, following the source: a cache hit returns the cached scene with no
cache operation; otherwise — including the case where the id is already in
`in_progress_scenes`, where the 30-second poll necessarily times out
because no other task runs in the sequential model — the id is added to
`in_progress_scenes` (a no-op when already a member, as for a Python set),
the backend outcome is turned into a scene (`create_placeholder_scene` on
either failure), the result is written to `generated_scenes`, and the id
is removed from `in_progress_scenes`.  The backend call `await`s between
the first and second recorded states. -/
def generate_scene_from_outline_with_gemini (o : SceneOutline)
    (ba : BookAnalysis) (oc : GenOutcome) (st : Store) :
    Scene × Store × List Store :=
  match dictLookup st.scenes o.id with
  | some sc => (sc, st, [])
  | none =>
    let st1 : Store := { st with inProgress := addMem st.inProgress o.id }
    let result :=
      match oc with
      | .parsed sc => sc
      | .parseFail => create_placeholder_scene o.id o ba
      | .exn => create_placeholder_scene o.id o ba
    let st2 : Store := { st1 with scenes := dictInsert st1.scenes o.id result }
    let st3 : Store := { st2 with inProgress := removeMem st2.inProgress o.id }
    (result, st3, [st1, st2, st3])

/-- The exactly-one-of-{absent, inProgress, scenes} invariant of the
generation cache, as a decidable check: no key of `generated_scenes` is
also a member of `in_progress_scenes`. -/
def exclusiveB (st : Store) : Bool :=
  st.scenes.all (fun p => !(st.inProgress.contains p.1))

/-! ### `update_scene_graph` (vn_generator.py lines 152-197) -/

/-- Create the empty adjacency record for `sid` unless one exists. -/
def ensureEntry (g : List (String × GraphEntry)) (sid : String) :
    List (String × GraphEntry) :=
  if (dictLookup g sid).isSome then g
  else g ++ [(sid, ({ outgoing := [], incoming := [] } : GraphEntry))]

/-- Append `{target, text}` to the `outgoing` list of every record keyed
`src` that does not already list `target` (the source guards with
`choice["nextScene"] not in [c["target"] for c in ...outgoing]`). -/
def addOutgoing (g : List (String × GraphEntry)) (src tgt txt : String) :
    List (String × GraphEntry) :=
  g.map (fun p =>
    if p.1 == src then
      (p.1,
        if (p.2.outgoing.map (·.target)).contains tgt then p.2
        else { p.2 with outgoing := p.2.outgoing ++ [{ target := tgt, text := txt }] })
    else p)

/-- Append `{source, text}` to the `incoming` list of every record keyed
`tgt` that does not already list `src`. -/
def addIncoming (g : List (String × GraphEntry)) (tgt src txt : String) :
    List (String × GraphEntry) :=
  g.map (fun p =>
    if p.1 == tgt then
      (p.1,
        if (p.2.incoming.map (·.source)).contains src then p.2
        else { p.2 with incoming := p.2.incoming ++ [{ source := src, text := txt }] })
    else p)

/-- Handle one choice of scene `src`: skip `"exit"`, otherwise record the
outgoing edge, ensure the target's record, and record the incoming edge. -/
def processChoice (src : String) (g : List (String × GraphEntry))
    (c : Choice) : List (String × GraphEntry) :=
  if c.nextScene != "exit" then
    let g1 := addOutgoing g src c.nextScene c.text
    let g2 := ensureEntry g1 c.nextScene
    addIncoming g2 c.nextScene src c.text
  else g

/-- Handle one dialogue entry (its choices, when the key is present). -/
def processEntry (src : String) (g : List (String × GraphEntry))
    (d : DialogueEntry) : List (String × GraphEntry) :=
  match d.choices with
  | none => g
  | some cs => cs.foldl (processChoice src) g

/-- The graph part of processing one scene: ensure the scene's record,
then fold its dialogue. -/
def processSceneG (g : List (String × GraphEntry)) (sc : Scene) :
    List (String × GraphEntry) :=
  sc.dialogue.foldl (processEntry sc.id) (ensureEntry g sc.id)

/-- Processing one scene also saves it to `generated_scenes` (source line
161) before touching the graph. -/
def processScene (st : Store) (sc : Scene) : Store :=
  { st with scenes := dictInsert st.scenes sc.id sc,
            sceneGraph := processSceneG st.sceneGraph sc }

/-- `update_scene_graph(script_data)`: fold every scene of the script into
the store. -/
def update_scene_graph (s : Script) (st : Store) : Store :=
  s.scenes.foldl processScene st

/-! ### `generate_placeholder_scene` (vn_generator.py lines 1602-1659),
the runtime fallback used by `generate_next_scene`. -/

/-- `generate_placeholder_scene(scene_id, book_analysis)`.  `r1` and `r2`
are the two `random.randint(1000, 9999)` draws (mapped into the interval);
the scene is written to `generated_scenes` unconditionally, with no
interaction with `in_progress_scenes`. -/
def generate_placeholder_scene (r1 r2 : Nat) (sceneId : String)
    (ba : BookAnalysis) (st : Store) : Scene × Store :=
  let charIds := (ba.characters.take 2).enum.map
    (fun p => p.2.id.getD ("char_" ++ toString p.1))
  let speaker1 := match ba.characters with
    | c :: _ => c.name
    | [] => "Character"
  let speaker2 := match ba.characters with
    | _ :: c :: _ => c.name
    | _ => "Friend"
  let cid1 := charIds.headD "protagonist"
  let cid2 := match charIds with
    | _ :: c :: _ => c
    | _ => "supporting"
  let sc : Scene :=
    { id := sceneId, background := "library",
      characters := charIds.map (fun cid => { id := cid, image := "default" }),
      dialogue :=
        [ { speaker := "Narrator", text := "The story continues..." },
          { speaker := speaker1,
            text := "We should proceed carefully from here.",
            characterId := some cid1 },
          { speaker := speaker2, text := "I agree. Let's consider our options.",
            characterId := some cid2 },
          { speaker := "Narrator", text := "What will you do?",
            choices := some
              [ { text := "Continue the adventure",
                  nextScene := "scene_" ++ toString (1000 + r1 % 9000) },
                { text := "Take a different path",
                  nextScene := "scene_" ++ toString (1000 + r2 % 9000) } ] } ],
      generatedWith := some "Placeholder" }
  (sc, { st with scenes := dictInsert st.scenes sceneId sc })

/-! ### `generate_next_scene` (vn_generator.py lines 1662-1764) -/

/-- The outline the runtime resolver builds for a requested id: from the
scene graph's incoming edges when the id is a known target (description
joining the sources, characters inferred from the cached source scenes),
otherwise the fixed generic outline with two placeholder connections.
`dc` is the `random.randint(7, 10)` draw of the known-target branch. -/
def resolverOutline (sceneId : String) (dc : Nat) (st : Store) : SceneOutline :=
  match dictLookup st.sceneGraph sceneId with
  | some entry =>
    let joined := String.intercalate ", " (entry.incoming.map (·.source))
    let chars := entry.incoming.foldl (fun acc conn =>
      match dictLookup st.scenes conn.source with
      | some sc => sc.characters.foldl (fun acc ch =>
          if ch.id != "" && !(acc.contains ch.id) then acc ++ [ch.id] else acc) acc
      | none => acc) []
    { id := sceneId,
      description := "Continuation of the story from " ++ joined,
      characters := chars,
      setting := "A location appropriate to the story progression",
      atmosphere := "Consistent with the narrative tone",
      dialogueCount := 7 + dc % 4,
      connectsTo := [] }
  | none =>
    { id := sceneId,
      description := "Continuation of the adventure",
      characters := [],
      setting := "A location within the story world",
      atmosphere := "Consistent with the narrative",
      dialogueCount := 8,
      connectsTo := ["scene_next", "scene_alt"] }

/-- `generate_next_scene(next_scene_id)`.  `gemini` is the
`GEMINI_AVAILABLE` flag; `oc` the synthesizer's backend outcome; `dc`,
`r1`, `r2` the random draws; `ba` the cached `book_analysis`.

The two source branches (id known to the scene graph / unknown) differ
only in the outline they build — `resolverOutline` — and then run the same
logic, so they are modelled once.  Scene values are non-empty dicts and
therefore truthy, so the `if scene:` fallback inside the Gemini branch is
unreachable and the `generate_placeholder_scene` fallback is reached
exactly when Gemini is unavailable.  On Gemini success the source sets
`scene["generated_with"] = "Gemini"` on the very object stored in
`generated_scenes`, modelled by re-inserting the tagged scene at the same
key. -/
def generate_next_scene (gemini : Bool) (oc : GenOutcome) (dc r1 r2 : Nat)
    (sceneId : String) (ba : BookAnalysis) (st : Store) : Scene × Store :=
  match dictLookup st.scenes sceneId with
  | some sc => (sc, st)
  | none =>
    let o := resolverOutline sceneId dc st
    if gemini then
      let r := generate_scene_from_outline_with_gemini o ba oc st
      let sc' := { r.1 with generatedWith := some "Gemini" }
      (sc', { r.2.1 with scenes := dictInsert r.2.1.scenes sceneId sc' })
    else
      generate_placeholder_scene r1 r2 sceneId ba st

/-! ### `validate_and_fix_scene_connections` (vn_generator.py lines
1268-1359) -/

/-- One collected `(source_scene, choice_text, next_scene)` triple. -/
structure Ref where
  source : String
  text : String
  target : String
  deriving Repr, DecidableEq

/-- The scene-id list.  The source builds a Python `set`; membership is
identical, and its unspecified iteration order is modelled as
first-occurrence order (duplicate scene ids, which a well-formed script
does not have, are immaterial to every theorem below). -/
def sceneIds (s : Script) : List String :=
  s.scenes.map (·.id)

/-- The refs contributed by one dialogue entry of scene `sid`. -/
def choiceRefs (sid : String) (d : DialogueEntry) : List Ref :=
  match d.choices with
  | none => []
  | some cs => cs.map (fun c => { source := sid, text := c.text, target := c.nextScene })

/-- All `nextScene` references of one scene. -/
def sceneRefs (sc : Scene) : List Ref :=
  (sc.dialogue.map (choiceRefs sc.id)).flatten

/-- All `nextScene` references of the script, in order. -/
def collectRefs (s : Script) : List Ref :=
  (s.scenes.map sceneRefs).flatten

/-- Is `t` an invalid target: neither a known scene id nor `"exit"`? -/
def invalidTarget (ids : List String) (t : String) : Bool :=
  !(ids.contains t) && t != "exit"

/-- The replacement target for an invalid reference `tgt`: the first scene
id related to it by substring containment in either direction, else the
first scene id. -/
def newTarget (ids : List String) (tgt : String) : String :=
  match ids.filter (fun sid => strContainsSub sid tgt || strContainsSub tgt sid) with
  | [] => ids.headD ""
  | sid :: _ => sid

/-- Rewrite one choice if it matches the invalid ref being fixed. -/
def fixChoice (ids : List String) (r : Ref) (c : Choice) : Choice :=
  if c.text == r.text && c.nextScene == r.target then
    { c with nextScene := newTarget ids r.target }
  else c

/-- One pass of the fix loop: rewrite, in every scene whose id is the
ref's source, every choice matching the ref's text and target. -/
def applyFix (ids : List String) (s : Script) (r : Ref) : Script :=
  { s with scenes := s.scenes.map (fun sc =>
      if sc.id == r.source then
        { sc with dialogue := sc.dialogue.map (fun d =>
            { d with choices := d.choices.map (List.map (fixChoice ids r)) }) }
      else sc) }

/-- The whole reference-repair pass: fold the invalid refs. -/
def fixRefs (ids : List String) (invalid : List Ref) (s : Script) : Script :=
  invalid.foldl (applyFix ids) s

/-- One pass of the reachability fix-point loop: walk the collected refs,
adding each non-`"exit"` target whose source is already reachable
(additions are visible to later refs of the same pass, as for the mutated
Python set). -/
def expandOnce (refs : List Ref) (R : List String) : List String :=
  refs.foldl (fun R r =>
    if R.contains r.source && r.target != "exit" && !(R.contains r.target) then
      R ++ [r.target]
    else R) R

/-- The reachable set: the source iterates `expandOnce` until it stops
growing; each pre-fix-point pass adds at least one element and only
targets of refs can ever be added, so `refs.length + 1` passes always
reach (and then preserve) the fix point. -/
def computeReachable (refs : List Ref) (seeds : List String) : List String :=
  (expandOnce refs)^[refs.length + 1] seeds

/-- The initial reachable set: `{"scene_intro", "scene_1"}` when either is
a scene id, else the first scene id — `next(iter(scene_ids))` raises
`StopIteration` when there are no scenes at all. -/
def seedsOf (ids : List String) : Option (List String) :=
  if ids.contains "scene_intro" || ids.contains "scene_1" then
    some ["scene_intro", "scene_1"]
  else
    match ids with
    | [] => none
    | i :: _ => some [i]

/-- Append `c` to the choices of the last dialogue entry that carries a
`choices` key (the source walks `reversed(scene["dialogue"])` and breaks
at the first hit; nothing changes when no entry has the key). -/
def appendChoiceCore (c : Choice) : List DialogueEntry → List DialogueEntry
  | [] => []
  | d :: ds =>
    if ds.any (fun d' => d'.choices.isSome) then d :: appendChoiceCore c ds
    else
      match d.choices with
      | some cs => { d with choices := some (cs ++ [c]) } :: ds
      | none => d :: ds

/-- Repair one unreachable scene `sid`: pick a source from the reachable
list (`random.choice`, modelled by the oracle `pick`) and append an
`"Explore a different path"` choice to it. -/
def repairOne (pick : String → List String → String)
    (closure : List String) (s : Script) (sid : String) : Script :=
  let src := pick sid closure
  let c : Choice := { text := "Explore a different path", nextScene := sid }
  { s with scenes := s.scenes.map (fun sc =>
      if sc.id == src then
        { sc with dialogue := appendChoiceCore c sc.dialogue }
      else sc) }

/-- `validate_and_fix_scene_connections(script_data)`: collect refs, fix
the invalid ones, compute the reachable closure from the entry seeds over
the refs as collected (before fixing — the source reads the saved
`next_scene_refs` dicts, which the fix pass does not update), and append
one inbound choice per unreachable scene.  `pick` oracles
`random.choice(list(reachable))`, fed the repaired scene's id and the
reachable list. -/
def validate_and_fix_scene_connections
    (pick : String → List String → String) (s : Script) :
    Except PyErr Script :=
  let ids := sceneIds s
  let refs := collectRefs s
  let invalid := refs.filter (fun r => invalidTarget ids r.target)
  let s1 := fixRefs ids invalid s
  match seedsOf ids with
  | none => .error .stopIter
  | some seeds =>
    let reachable := computeReachable refs seeds
    let unreach := ids.filter (fun i => !(reachable.contains i))
    .ok (unreach.foldl (repairOne pick reachable) s1)

/-- Forward reachability over a ref list from a seed set, along
non-`"exit"` edges: the notion the reachability claims are stated in. -/
inductive ReachableFrom (refs : List Ref) (seeds : List String) : String → Prop where
  | seed {x : String} : x ∈ seeds → ReachableFrom refs seeds x
  | step (r : Ref) : ReachableFrom refs seeds r.source → r ∈ refs →
      r.target ≠ "exit" → ReachableFrom refs seeds r.target

/-! ### Shared concrete inputs for witnesses and counterexamples -/

/-- The oracle for `random.choice` that always returns the first element. -/
def pickHead : String → List String → String := fun _ l => l.headD ""

/-- A book analysis with no characters and no metadata. -/
def baPlain : BookAnalysis := {}

/-- A book analysis carrying a metadata dict. -/
def baMeta : BookAnalysis := { metadata := some [("title", "T")] }

/-- An outline with no characters attached and one forward connection. -/
def oNoChars : SceneOutline :=
  { id := "scene_c4", description := "d", characters := [], setting := "s",
    atmosphere := "a", dialogueCount := 6, connectsTo := ["scene_2"] }

/-- A parsed backend outline with two scenes, used against `sceneLimit = 1`. -/
def bigOutline : Outline :=
  { scenes :=
      [ { id := "scene_a", description := "da", characters := [], setting := "sa",
          atmosphere := "aa", dialogueCount := 6, connectsTo := ["scene_b"] },
        { id := "scene_b", description := "db", characters := [], setting := "sb",
          atmosphere := "ab", dialogueCount := 6, connectsTo := [] } ] }

/-- The store of the C8 counterexample: the requested id carries an
in-progress claim but is not yet in the scenes map. -/
def stClaimed : Store := { scenes := [], inProgress := ["scene_z"], sceneGraph := [] }

/-- The empty script: `validate_and_fix_scene_connections` raises on it. -/
def emptyScript : Script := { title := "E", scenes := [] }

/-- A script whose second scene is unreachable and cannot be repaired: no
dialogue entry of any scene carries a `choices` key. -/
def cexC2 : Script :=
  { title := "T",
    scenes :=
      [ { id := "scene_1", background := "b", characters := [],
          dialogue := [ { speaker := "Narrator", text := "hi" } ] },
        { id := "scene_X", background := "b", characters := [], dialogue := [] } ] }

/-- A two-scene script with one dangling reference (`scene_bogus`). -/
def wC1 : Script :=
  { title := "W",
    scenes :=
      [ { id := "scene_1", background := "b", characters := [],
          dialogue :=
            [ { speaker := "N", text := "t",
                choices := some [ { text := "go", nextScene := "scene_bogus" } ] } ] },
        { id := "scene_2", background := "b", characters := [],
          dialogue :=
            [ { speaker := "N", text := "t",
                choices := some [ { text := "back", nextScene := "scene_1" } ] } ] } ] }

/-- A script with both entry seeds present, every reference valid, every
scene carrying a choice-bearing dialogue entry, and one unreachable scene
`scene_B`. -/
def wC2 : Script :=
  { title := "W2",
    scenes :=
      [ { id := "scene_intro", background := "b", characters := [],
          dialogue :=
            [ { speaker := "N", text := "t",
                choices := some [ { text := "stay", nextScene := "scene_intro" } ] } ] },
        { id := "scene_1", background := "b", characters := [],
          dialogue :=
            [ { speaker := "N", text := "t",
                choices := some [ { text := "loop", nextScene := "scene_1" } ] } ] },
        { id := "scene_B", background := "b", characters := [],
          dialogue :=
            [ { speaker := "N", text := "t",
                choices := some [ { text := "loopB", nextScene := "scene_B" } ] } ] } ] }

/-- A reference (equivalently, a choice) is valid when its target is the
`"exit"` sentinel or a known scene id. -/
def refValid (ids : List String) (r : Ref) : Prop :=
  r.target = "exit" ∨ r.target ∈ ids

/-! #### Saturation predicates for the scene-graph index -/

/-- The graph has a record for key `k`. -/
def hasEntry (g : List (String × GraphEntry)) (k : String) : Prop :=
  (dictLookup g k).isSome = true

/-- Every record keyed `src` already lists `tgt` among its outgoing
targets. -/
def outHolds (g : List (String × GraphEntry)) (src tgt : String) : Prop :=
  ∀ p ∈ g, p.1 = src → ((p.2.outgoing.map (·.target)).contains tgt) = true

/-- Every record keyed `tgt` already lists `src` among its incoming
sources. -/
def inHolds (g : List (String × GraphEntry)) (tgt src : String) : Prop :=
  ∀ p ∈ g, p.1 = tgt → ((p.2.incoming.map (·.source)).contains src) = true

/-- The adjacency information of one choice of scene `src` is already in
the graph. -/
def choiceDone (g : List (String × GraphEntry)) (src : String) (c : Choice) : Prop :=
  c.nextScene ≠ "exit" →
    outHolds g src c.nextScene ∧ hasEntry g c.nextScene ∧ inHolds g c.nextScene src

/-- The whole adjacency contribution of one scene is already in the graph. -/
def sceneDone (g : List (String × GraphEntry)) (sc : Scene) : Prop :=
  hasEntry g sc.id ∧
  ∀ d ∈ sc.dialogue, ∀ cs, d.choices = some cs → ∀ c ∈ cs, choiceDone g sc.id c

/-- Monotone graph growth: established keys, outgoing edges and incoming
edges survive (edge facts tied to keys the graph already holds). -/
def graphLE (g g' : List (String × GraphEntry)) : Prop :=
  (∀ k, hasEntry g k → hasEntry g' k) ∧
  (∀ src tgt, hasEntry g src → outHolds g src tgt → outHolds g' src tgt) ∧
  (∀ tgt src, hasEntry g tgt → inHolds g tgt src → inHolds g' tgt src)

/-- Merge growth: every existing record survives at its key with its
previous edge lists as prefixes (nothing deleted or replaced). -/
def graphExt (g g' : List (String × GraphEntry)) : Prop :=
  ∀ sid e, dictLookup g sid = some e →
    ∃ e', dictLookup g' sid = some e' ∧
      (∃ t1, e'.outgoing = e.outgoing ++ t1) ∧
      (∃ t2, e'.incoming = e.incoming ++ t2)

/-! #### Frame relations for the validator (claim C10) -/

/-- How the validator may alter one pre-existing choice: the text is kept,
and the target is rewritten only when it was invalid. -/
def choiceFrame (ids : List String) (c c' : Choice) : Prop :=
  c'.text = c.text ∧
  (c'.nextScene = c.nextScene ∨ (c.nextScene ≠ "exit" ∧ ¬ c.nextScene ∈ ids))

/-- How the validator may alter one dialogue entry: speaker, text and
character are kept; a missing `choices` key stays missing; a present one
keeps all its choices (as a prefix, each within `choiceFrame`) and may only
gain appended ones. -/
def entryFrame (ids : List String) (d d' : DialogueEntry) : Prop :=
  d'.speaker = d.speaker ∧ d'.text = d.text ∧ d'.characterId = d.characterId ∧
  (match d.choices, d'.choices with
   | none, none => True
   | some cs, some cs' =>
       cs.length ≤ cs'.length ∧ List.Forall₂ (choiceFrame ids) cs (cs'.take cs.length)
   | _, _ => False)

/-- How the validator may alter one scene: everything except the dialogue
entries' choices is kept, and the dialogue is altered pointwise within
`entryFrame`. -/
def sceneFrame (ids : List String) (sc sc' : Scene) : Prop :=
  sc'.id = sc.id ∧ sc'.background = sc.background ∧
  sc'.characters = sc.characters ∧ sc'.generatedWith = sc.generatedWith ∧
  List.Forall₂ (entryFrame ids) sc.dialogue sc'.dialogue

/-- The effect of one `applyFix` pass on one collected ref: a ref matching
the fixed ref's source, text and target is retargeted, every other ref is
untouched (`collectRefs` after `applyFix` is the pointwise image of
`collectRefs` before it, see `collectRefs_applyFix`). -/
def refFix (ids : List String) (r0 r : Ref) : Ref :=
  if r.source == r0.source && r.text == r0.text && r.target == r0.target then
    { r with target := newTarget ids r0.target }
  else r

/-- Phase-one (reference repair) frame on one dialogue entry: everything
kept except choice targets, the choices list keeping its length. -/
def entryFix (ids : List String) (d d' : DialogueEntry) : Prop :=
  d'.speaker = d.speaker ∧ d'.text = d.text ∧ d'.characterId = d.characterId ∧
  (match d.choices, d'.choices with
   | none, none => True
   | some cs, some cs' => cs.length = cs'.length ∧ List.Forall₂ (choiceFrame ids) cs cs'
   | _, _ => False)

/-- Phase-one frame on one scene. -/
def sceneFix (ids : List String) (sc sc' : Scene) : Prop :=
  sc'.id = sc.id ∧ sc'.background = sc.background ∧
  sc'.characters = sc.characters ∧ sc'.generatedWith = sc.generatedWith ∧
  List.Forall₂ (entryFix ids) sc.dialogue sc'.dialogue

/-- Phase-two (reachability repair) frame on one dialogue entry:
everything kept except that a present choices list may gain appended
choices. -/
def entryApp (d d' : DialogueEntry) : Prop :=
  d'.speaker = d.speaker ∧ d'.text = d.text ∧ d'.characterId = d.characterId ∧
  (match d.choices, d'.choices with
   | none, none => True
   | some cs, some cs' => ∃ extra, cs' = cs ++ extra
   | _, _ => False)

/-- Phase-two frame on one scene. -/
def sceneApp (sc sc' : Scene) : Prop :=
  sc'.id = sc.id ∧ sc'.background = sc.background ∧
  sc'.characters = sc.characters ∧ sc'.generatedWith = sc.generatedWith ∧
  List.Forall₂ entryApp sc.dialogue sc'.dialogue


/-! ### Claim C4 -/

/-- C4, counterexample: for the outline `oNoChars`, which has no character
attached (`characters = []`), the placeholder scene nevertheless contains
the generic character line (speaker `"character"`) as its third dialogue
entry — the claim says that line appears only if at least one character is
attached to the outline. -/
theorem c4_counterexample :
    oNoChars.characters = [] ∧
    (create_placeholder_scene "scene_c4" oNoChars baPlain).dialogue.length = 4 ∧
    (create_placeholder_scene "scene_c4" oNoChars baPlain).dialogue[2]? =
      some { speaker := "character",
             text := "We need to proceed carefully in this situation.",
             characterId := some "character" } := by
  decide

/-- C4 (amended): for every outline, the placeholder scene has background
equal to the outline's setting, exactly four dialogue entries — two leading
narrator lines summarizing setting and description, then one generic
character line spoken by the first entry of the (never empty) character
list, which is the generic `"character"` stand-in whenever no character is
attached — and a trailing narrator entry carrying one choice per declared
`connectsTo` target, or the single synthetic `"Continue"` choice when
`connectsTo` is empty. -/
theorem c4_amended (sid : String) (o : SceneOutline) (ba : BookAnalysis) :
    (create_placeholder_scene sid o ba).id = sid ∧
    (create_placeholder_scene sid o ba).background = o.setting ∧
    (create_placeholder_scene sid o ba).characters ≠ [] ∧
    (o.characters = [] →
      (create_placeholder_scene sid o ba).characters =
        [{ id := "character", image := "A person relevant to this scene" }]) ∧
    (create_placeholder_scene sid o ba).dialogue =
      [ { speaker := "Narrator", text := o.setting ++ ". " ++ o.atmosphere ++ "." },
        { speaker := "Narrator", text := o.description },
        { speaker := ((create_placeholder_scene sid o ba).characters.headD
            { id := "Character", image := "" }).id,
          text := "We need to proceed carefully in this situation.",
          characterId := some ((create_placeholder_scene sid o ba).characters.headD
            { id := "Character", image := "" }).id },
        { speaker := "Narrator", text := "What will you do next?",
          choices := some (if o.connectsTo.isEmpty then
              [{ text := "Continue", nextScene := "scene_next" }]
            else o.connectsTo.map (fun conn =>
              { text := "Continue to " ++ conn, nextScene := conn })) } ] := by
  simp only [create_placeholder_scene]
  cases hF : o.characters.filterMap (fun cid =>
      (lookupChar ba cid).map (fun c =>
        ({ id := c.id.getD cid,
           image := "A character representing " ++ c.name } : SceneChar))) with
  | nil =>
    refine ⟨trivial, trivial, by simp, fun _ => rfl, ?_⟩
    cases h' : o.connectsTo <;> simp [h']
  | cons c cs =>
    refine ⟨trivial, trivial, by simp, ?_, ?_⟩
    · intro h
      rw [h] at hF
      simp at hF
    · cases h' : o.connectsTo <;> simp [h']

/-- C4, witness for the amended theorem at a concrete input. -/
theorem c4_witness :
    (create_placeholder_scene "scene_c4" oNoChars baPlain).background = "s" ∧
    (create_placeholder_scene "scene_c4" oNoChars baPlain).characters =
      [{ id := "character", image := "A person relevant to this scene" }] := by
  have h := c4_amended "scene_c4" oNoChars baPlain
  exact ⟨h.2.1, h.2.2.2.1 (by decide)⟩

/-! ### Claim C9 -/

/-- C9: `create_placeholder_scene` is a pure, deterministic function of
its inputs; indeed, it depends on the book analysis only through its
`characters` list, so two calls with the same scene id, the same outline
and book analyses agreeing on their characters return structurally
identical scenes. -/
theorem c9_placeholder_deterministic (sid : String) (o : SceneOutline)
    (ba ba' : BookAnalysis) (h : ba.characters = ba'.characters) :
    create_placeholder_scene sid o ba = create_placeholder_scene sid o ba' := by
  unfold create_placeholder_scene lookupChar
  rw [h]

/-- C9, witness: two book analyses differing in everything except
`characters` give identical placeholder scenes. -/
theorem c9_witness :
    create_placeholder_scene "scene_1" oNoChars baPlain =
      create_placeholder_scene "scene_1" oNoChars baMeta :=
  c9_placeholder_deterministic "scene_1" oNoChars baPlain baMeta rfl

/-! ### Claim C5 -/

/-- C5: contrary to the claim, an exception does escape the Outline
Planner.  The prompt is assembled before the `try` block, and it
subscripts `book_analysis['metadata']`; for any book analysis missing the
`metadata` key the planner raises `KeyError('metadata')` no matter how the
backend would have behaved, instead of returning the deterministic
fallback outline. -/
theorem c5_planner_raises_keyerror (chars : List BookChar)
    (oc : PlannerOutcome) (n : Nat) :
    generate_script_outline_with_gemini { metadata := none, characters := chars } oc n
      = .error (.keyError "metadata") := rfl

/-! ### Claim C6 -/

/-- C6, counterexample: with `sceneLimit = 1`, a successfully parsed
backend outline containing two scenes is returned unchanged, so the
returned outline's scenes list exceeds `sceneLimit` — the planner applies
no truncation (the `[:5]` slice lives in its caller). -/
theorem c6_counterexample :
    generate_script_outline_with_gemini baMeta (.parsed bigOutline) 1 = .ok bigOutline ∧
    ¬ (bigOutline.scenes.length ≤ 1) :=
  ⟨rfl, by decide⟩

/-- C6 (amended): for every book analysis that carries a `metadata` key
and every `sceneLimit`, the planner returns the parsed outline unchanged
on success — its length is whatever the backend produced, with no
`sceneLimit` truncation at this layer (the bound is enforced only by the
caller's `[:5]` slice) — and on text-generation failure or unrepairable
malformed output it returns exactly the fixed non-empty two-outline
fallback `scene_1 -> {scene_2a, scene_2b}`. -/
theorem c6_amended (ba : BookAnalysis) (m : List (String × String))
    (h : ba.metadata = some m) (n : Nat) :
    generate_script_outline_with_gemini ba .backendError n = .ok fallbackOutline ∧
    generate_script_outline_with_gemini ba .unparseable n = .ok fallbackOutline ∧
    (∀ o : Outline, generate_script_outline_with_gemini ba (.parsed o) n = .ok o) ∧
    fallbackOutline.scenes.map (·.id) = ["scene_1", "scene_2a"] ∧
    fallbackOutline.scenes.map (·.connectsTo) = [["scene_2a", "scene_2b"], ["scene_3"]] := by
  refine ⟨?_, ?_, ?_, by decide, by decide⟩ <;>
    simp [generate_script_outline_with_gemini, h]

/-- C6, witness for the amended theorem at a concrete input. -/
theorem c6_witness :
    generate_script_outline_with_gemini baMeta .backendError 5 = .ok fallbackOutline ∧
    generate_script_outline_with_gemini baMeta (.parsed bigOutline) 5 = .ok bigOutline := by
  have h := c6_amended baMeta [("title", "T")] rfl 5
  exact ⟨h.1, h.2.2.1 bigOutline⟩

/-! ### Cache lemmas shared by the concurrency-protocol claims -/

/-- Membership in `addMem`. -/
theorem mem_addMem {l : List String} {x y : String} :
    y ∈ addMem l x ↔ y ∈ l ∨ y = x := by
  unfold addMem
  split
  · rename_i h
    simp at h
    constructor
    · exact fun hy => Or.inl hy
    · rintro (hy | rfl) <;> [exact hy; exact h]
  · simp

/-- Membership in `removeMem`. -/
theorem mem_removeMem {l : List String} {x y : String} :
    y ∈ removeMem l x ↔ y ∈ l ∧ y ≠ x := by
  simp [removeMem]

/-- Removing an element just added gives the same result as removing it
from the original set. -/
theorem removeMem_addMem (l : List String) (x : String) :
    removeMem (addMem l x) x = removeMem l x := by
  unfold addMem removeMem
  split
  · rfl
  · simp [List.filter_append]

/-- A key reported absent by `dictLookup` heads no binding. -/
theorem dictLookup_none_fst {α : Type} {d : List (String × α)} {k : String}
    (h : dictLookup d k = none) : ∀ p ∈ d, p.1 ≠ k := by
  intro p hp
  unfold dictLookup at h
  rw [Option.map_eq_none'] at h
  have := List.find?_eq_none.mp h p hp
  simpa using this

/-- Inserting an absent key appends its binding. -/
theorem dictInsert_of_none {α : Type} {d : List (String × α)} {k : String}
    (h : dictLookup d k = none) (v : α) : dictInsert d k v = d ++ [(k, v)] := by
  unfold dictLookup at h
  rw [Option.map_eq_none'] at h
  unfold dictInsert
  simp [h]

/-- Looking up a key appended behind bindings that miss it. -/
theorem dictLookup_append_self {α : Type} {d : List (String × α)} {k : String}
    (h : dictLookup d k = none) (v : α) : dictLookup (d ++ [(k, v)]) k = some v := by
  unfold dictLookup at h ⊢
  rw [Option.map_eq_none'] at h
  simp [List.find?_append, h]

/-- `find?` over the in-place update of a present key finds the new value. -/
theorem find?_map_update {α : Type} (d : List (String × α)) (k : String) (v : α)
    (h : (d.find? (fun p => p.1 == k)).isSome) :
    (d.map (fun p => if p.1 == k then (p.1, v) else p)).find? (fun p => p.1 == k)
      = some (k, v) := by
  induction d with
  | nil => simp at h
  | cons a t ih =>
    rw [List.map_cons]
    by_cases hk : a.1 == k
    · have hk' : a.1 = k := by simpa using hk
      simp [List.find?_cons, hk, hk']
    · rw [if_neg hk]
      simp only [List.find?_cons, hk, cond_false] at h ⊢
      exact ih h

/-- `dictInsert` always makes the key map to the inserted value. -/
theorem dictLookup_dictInsert {α : Type} (d : List (String × α)) (k : String) (v : α) :
    dictLookup (dictInsert d k v) k = some v := by
  unfold dictInsert
  split
  · rename_i h
    unfold dictLookup
    rw [find?_map_update d k v h]
    rfl
  · rename_i h
    have hf : d.find? (fun p => p.1 == k) = none := by
      cases hfind : d.find? (fun p => p.1 == k) with
      | none => rfl
      | some p => rw [hfind] at h; simp at h
    have hnone : dictLookup d k = none := by
      unfold dictLookup; rw [hf]; rfl
    exact dictLookup_append_self hnone v

/-- The first components surviving a `dictInsert` are the old keys plus the
inserted one. -/
theorem fst_of_mem_dictInsert {α : Type} {d : List (String × α)} {k : String}
    {v : α} {p : String × α} (hp : p ∈ dictInsert d k v) :
    (∃ q ∈ d, q.1 = p.1) ∨ p.1 = k := by
  unfold dictInsert at hp
  split at hp
  · rcases List.mem_map.mp hp with ⟨q, hq, hqe⟩
    by_cases hk : q.1 == k
    · right; rw [if_pos hk] at hqe; rw [← hqe]; simpa using hk
    · left; rw [if_neg hk] at hqe; exact ⟨q, hq, by rw [hqe]⟩
  · rcases List.mem_append.mp hp with hq | hq
    · exact Or.inl ⟨p, hq, rfl⟩
    · right; simp at hq; rw [hq]

/-- `exclusiveB` unfolded to a membership statement. -/
theorem exclusiveB_iff {st : Store} :
    exclusiveB st = true ↔ ∀ p ∈ st.scenes, ¬ p.1 ∈ st.inProgress := by
  simp [exclusiveB]

/-- On a cache miss, the synthesizer appends exactly one binding for the
outline's id, removes the id from the in-progress set, leaves the graph
alone, and its cache-operation trace is claim / write / release. -/
theorem geminiScene_miss (o : SceneOutline) (ba : BookAnalysis)
    (oc : GenOutcome) (st : Store)
    (h : dictLookup st.scenes o.id = none) :
    (generate_scene_from_outline_with_gemini o ba oc st).2.1.scenes
        = st.scenes ++ [(o.id, (generate_scene_from_outline_with_gemini o ba oc st).1)] ∧
    (generate_scene_from_outline_with_gemini o ba oc st).2.1.inProgress
        = removeMem st.inProgress o.id ∧
    (generate_scene_from_outline_with_gemini o ba oc st).2.1.sceneGraph = st.sceneGraph ∧
    (generate_scene_from_outline_with_gemini o ba oc st).2.2
        = [ { st with inProgress := addMem st.inProgress o.id },
            { st with scenes := st.scenes
                ++ [(o.id, (generate_scene_from_outline_with_gemini o ba oc st).1)],
                      inProgress := addMem st.inProgress o.id },
            (generate_scene_from_outline_with_gemini o ba oc st).2.1 ] := by
  simp only [generate_scene_from_outline_with_gemini, h]
  refine ⟨?_, ?_, trivial, ?_⟩ <;>
    simp [dictInsert_of_none h, removeMem_addMem]

/-- On a cache hit the synthesizer performs no cache operation. -/
theorem geminiScene_hit (o : SceneOutline) (ba : BookAnalysis)
    (oc : GenOutcome) (st : Store) (sc : Scene)
    (h : dictLookup st.scenes o.id = some sc) :
    generate_scene_from_outline_with_gemini o ba oc st = (sc, st, []) := by
  simp only [generate_scene_from_outline_with_gemini, h]

/-! ### Claim C3 -/

/-- C3, counterexample: the claim says a sceneId is never in the
in-progress set and the scenes map simultaneously at any point during or
between operations on the generation cache.  But the synthesizer writes
the result into `generated_scenes` (line 740) and only then removes the id
from `in_progress_scenes` (line 743): in the recorded cache-operation
trace of a concrete run, the state after the write and before the removal
(`trace[1]`) has the id in both. -/
theorem c3_counterexample :
    ((((generate_scene_from_outline_with_gemini oNoChars baPlain .exn
        { scenes := [], inProgress := [], sceneGraph := [] }).2.2.getD 1
        { scenes := [], inProgress := [], sceneGraph := [] }).inProgress.contains
          "scene_c4") = true) ∧
    ((dictLookup ((generate_scene_from_outline_with_gemini oNoChars baPlain .exn
        { scenes := [], inProgress := [], sceneGraph := [] }).2.2.getD 1
        { scenes := [], inProgress := [], sceneGraph := [] }).scenes
          "scene_c4").isSome = true) := by
  decide

/-- C3 (amended): the exactly-one-of-{absent, inProgress, scenes} state
holds for every id at every suspension (await) point of a synthesizer
call — the write into the scenes map and the in-progress removal form one
atomic, await-free block, inside which the id is transiently in both — and
a sceneId that is already a key of the scenes map is returned as cached by
any later synthesizer call of the session, with no cache operation and no
regeneration; a fresh id ends with its result in the scenes map exactly
once and out of the in-progress set.  (Stated for the sequential semantics
of the embedding; the timed-out-poll race of §5 of the spec is outside
it.) -/
theorem c3_amended (o : SceneOutline) (ba : BookAnalysis) (oc : GenOutcome)
    (st : Store) (hex : exclusiveB st = true) :
    (∀ sc, dictLookup st.scenes o.id = some sc →
        generate_scene_from_outline_with_gemini o ba oc st = (sc, st, [])) ∧
    (dictLookup st.scenes o.id = none →
        exclusiveB ((generate_scene_from_outline_with_gemini o ba oc st).2.2.headD st) = true ∧
        exclusiveB (generate_scene_from_outline_with_gemini o ba oc st).2.1 = true ∧
        dictLookup (generate_scene_from_outline_with_gemini o ba oc st).2.1.scenes o.id
          = some (generate_scene_from_outline_with_gemini o ba oc st).1 ∧
        (generate_scene_from_outline_with_gemini o ba oc st).2.1.inProgress.contains o.id
          = false) := by
  constructor
  · intro sc hsc
    exact geminiScene_hit o ba oc st sc hsc
  · intro h
    obtain ⟨hsc, hip, -, htr⟩ := geminiScene_miss o ba oc st h
    have hkeys := dictLookup_none_fst h
    refine ⟨?_, ?_, ?_, ?_⟩
    · rw [htr]
      simp only [List.headD_cons]
      rw [exclusiveB_iff]
      intro p hp
      rw [mem_addMem]
      rintro (hmem | heq)
      · exact (exclusiveB_iff.mp hex) p hp hmem
      · exact hkeys p hp heq
    · rw [exclusiveB_iff, hsc, hip]
      intro p hp
      rw [mem_removeMem]
      rintro ⟨hmem, hne⟩
      rcases List.mem_append.mp hp with hp' | hp'
      · exact (exclusiveB_iff.mp hex) p hp' hmem
      · simp at hp'
        exact hne (by rw [hp'])
    · rw [hsc]
      exact dictLookup_append_self h _
    · rw [hip]
      simp [removeMem]

/-- C3, witness: the amended theorem applied to a concrete fresh id on an
exclusive cache. -/
theorem c3_witness :
    exclusiveB (generate_scene_from_outline_with_gemini oNoChars baPlain .exn
      { scenes := [], inProgress := [], sceneGraph := [] }).2.1 = true ∧
    (generate_scene_from_outline_with_gemini oNoChars baPlain .exn
      { scenes := [], inProgress := [], sceneGraph := [] }).2.1.inProgress.contains
        "scene_c4" = false := by
  have h := c3_amended oNoChars baPlain .exn
    { scenes := [], inProgress := [], sceneGraph := [] } (by decide)
  have h2 := h.2 (by decide)
  exact ⟨h2.2.1, h2.2.2.2⟩

/-! ### Claim C8 -/

/-- C8, counterexample: with the text backend unavailable, the Runtime
Scene Resolver calls `generate_placeholder_scene`, which writes the scene
into the cache directly: here the requested id is in the in-progress set
(another claim is outstanding), yet the resolver neither waits for it nor
clears it — after the call the id is simultaneously a scenes-map key and
an in-progress member, so this path does not go through the synthesizer's
deduplication protocol. -/
theorem c8_counterexample :
    (dictLookup (generate_next_scene false .exn 0 5 7 "scene_z" baPlain stClaimed).2.scenes
      "scene_z").isSome = true ∧
    (generate_next_scene false .exn 0 5 7 "scene_z" baPlain stClaimed).2.inProgress
      = ["scene_z"] := by
  decide

/-- C8 (amended): the cached path returns the cached scene with no cache
mutation, and the Gemini-backed synthesis path funnels through the Scene
Synthesizer's deduplication protocol (its result is the synthesizer's
result tagged `generated_with = "Gemini"`, the in-progress claim is taken
and cleared, the result sits in the scenes map under the requested id, and
cache exclusivity is preserved); but the fallback path taken when the
backend is unavailable calls `generate_placeholder_scene`, which writes
the scene into the cache while leaving the in-progress set untouched —
bypassing the in-progress guard. -/
theorem c8_amended (gemini : Bool) (oc : GenOutcome) (dc r1 r2 : Nat)
    (sid : String) (ba : BookAnalysis) (st : Store) (hex : exclusiveB st = true) :
    (∀ sc, dictLookup st.scenes sid = some sc →
        generate_next_scene gemini oc dc r1 r2 sid ba st = (sc, st)) ∧
    (dictLookup st.scenes sid = none → gemini = true →
        (generate_next_scene gemini oc dc r1 r2 sid ba st).1 =
          { (generate_scene_from_outline_with_gemini (resolverOutline sid dc st) ba oc st).1
              with generatedWith := some "Gemini" } ∧
        dictLookup (generate_next_scene gemini oc dc r1 r2 sid ba st).2.scenes sid
          = some (generate_next_scene gemini oc dc r1 r2 sid ba st).1 ∧
        (generate_next_scene gemini oc dc r1 r2 sid ba st).2.inProgress
          = removeMem st.inProgress sid ∧
        (generate_next_scene gemini oc dc r1 r2 sid ba st).2.inProgress.contains sid
          = false ∧
        exclusiveB (generate_next_scene gemini oc dc r1 r2 sid ba st).2 = true) ∧
    (dictLookup st.scenes sid = none → gemini = false →
        (generate_next_scene gemini oc dc r1 r2 sid ba st).2.scenes
          = dictInsert st.scenes sid (generate_next_scene gemini oc dc r1 r2 sid ba st).1 ∧
        (generate_next_scene gemini oc dc r1 r2 sid ba st).2.inProgress = st.inProgress ∧
        (generate_next_scene gemini oc dc r1 r2 sid ba st).2.sceneGraph = st.sceneGraph) := by
  refine ⟨?_, ?_, ?_⟩
  · intro sc hsc
    simp only [generate_next_scene, hsc]
  · intro h hg
    subst hg
    have hoid : (resolverOutline sid dc st).id = sid := by
      unfold resolverOutline
      cases dictLookup st.sceneGraph sid <;> rfl
    have hmiss := geminiScene_miss (resolverOutline sid dc st) ba oc st (by rw [hoid]; exact h)
    obtain ⟨hsc, hip, -, -⟩ := hmiss
    rw [hoid] at hsc hip
    have hkeys := dictLookup_none_fst h
    simp only [generate_next_scene, h, if_pos]
    refine ⟨trivial, ?_, ?_, ?_, ?_⟩
    · exact dictLookup_dictInsert _ sid _
    · rw [hip]
    · rw [hip]; simp [removeMem]
    · rw [exclusiveB_iff]
      intro p hp
      simp only
      rw [hip, mem_removeMem]
      rintro ⟨hmem, hne⟩
      rcases fst_of_mem_dictInsert hp with ⟨q, hq, hqe⟩ | hpk
      · rw [hsc] at hq
        rcases List.mem_append.mp hq with hq' | hq'
        · rw [← hqe] at hmem
          exact (exclusiveB_iff.mp hex) q hq' hmem
        · simp at hq'
          exact hne (by rw [← hqe, hq'])
      · exact hne hpk
  · intro h hg
    subst hg
    simp only [generate_next_scene, h, Bool.false_eq_true, if_neg,
      generate_placeholder_scene]
    exact ⟨rfl, rfl, rfl⟩

/-- C8, witness: the amended theorem's Gemini branch at a concrete input. -/
theorem c8_witness :
    dictLookup (generate_next_scene true .parseFail 0 5 7 "scene_z" baPlain
      stClaimed).2.scenes "scene_z"
      = some (generate_next_scene true .parseFail 0 5 7 "scene_z" baPlain stClaimed).1 ∧
    (generate_next_scene true .parseFail 0 5 7 "scene_z" baPlain
      stClaimed).2.inProgress.contains "scene_z" = false := by
  have h := c8_amended true .parseFail 0 5 7 "scene_z" baPlain stClaimed (by decide)
  have h2 := h.2.1 (by decide) rfl
  exact ⟨h2.2.1, h2.2.2.2.1⟩

/-! ### Scene-graph index lemmas (claim C7) -/

/-- A map that fixes every member is the identity. -/
theorem map_self_of_eq {α : Type} {l : List α} {f : α → α}
    (h : ∀ x ∈ l, f x = x) : l.map f = l := by
  induction l with
  | nil => rfl
  | cons a t ih =>
    rw [List.map_cons, h a (by simp), ih (fun x hx => h x (by simp [hx]))]

/-- `find?` by key commutes with a key-preserving entry transformation. -/
theorem find?_map_keys {α : Type} (f : (String × α) → (String × α))
    (hf : ∀ p, (f p).1 = p.1) (g : List (String × α)) (k : String) :
    (g.map f).find? (fun p => p.1 == k) = (g.find? (fun p => p.1 == k)).map f := by
  induction g with
  | nil => rfl
  | cons a t ih =>
    rw [List.map_cons]
    by_cases hk : a.1 == k
    · have hk' : ((f a).1 == k) = true := by rw [hf a]; exact hk
      simp [List.find?_cons, hk, hk']
    · have hk' : ¬ ((f a).1 == k) = true := by rw [hf a]; exact hk
      simp only [List.find?_cons, hk, hk', cond_false]
      simp only [Bool.not_eq_true] at hk hk'
      simp [hk, hk', ih]

/-- `dictLookup` through a key-preserving entry transformation. -/
theorem dictLookup_map_keys {α : Type} (f : (String × α) → (String × α))
    (hf : ∀ p, (f p).1 = p.1) (g : List (String × α)) (k : String) :
    dictLookup (g.map f) k
      = (g.find? (fun p => p.1 == k)).map (fun p => (f p).2) := by
  unfold dictLookup
  rw [find?_map_keys f hf g k]
  cases g.find? (fun p => p.1 == k) <;> rfl

/-- A binding found in the prefix survives appending. -/
theorem dictLookup_append_of_some {α : Type} {d : List (String × α)} {k : String}
    {v : α} (h : dictLookup d k = some v) (rest : List (String × α)) :
    dictLookup (d ++ rest) k = some v := by
  unfold dictLookup at h ⊢
  rcases hf : d.find? (fun p => p.1 == k) with _ | q
  · rw [hf] at h; simp at h
  · rw [hf] at h
    simp [List.find?_append, hf, h]

/-- Fold preservation of a reflexive–transitive relation along step-wise
growth. -/
theorem foldl_rel {α β : Type} (R : α → α → Prop) (hrefl : ∀ a, R a a)
    (htrans : ∀ {a b c}, R a b → R b c → R a c) (f : α → β → α)
    (hstep : ∀ a b, R a (f a b)) : ∀ (l : List β) (a), R a (l.foldl f a) := by
  intro l
  induction l with
  | nil => intro a; exact hrefl a
  | cons b t ih => intro a; exact htrans (hstep a b) (ih (f a b))

/-- `graphLE` is reflexive. -/
theorem graphLE_refl (g : List (String × GraphEntry)) : graphLE g g :=
  ⟨fun _ h => h, fun _ _ _ h => h, fun _ _ _ h => h⟩

/-- `graphLE` is transitive. -/
theorem graphLE_trans {g1 g2 g3 : List (String × GraphEntry)}
    (h12 : graphLE g1 g2) (h23 : graphLE g2 g3) : graphLE g1 g3 := by
  obtain ⟨a12, b12, c12⟩ := h12
  obtain ⟨a23, b23, c23⟩ := h23
  exact ⟨fun k h => a23 k (a12 k h),
         fun s t hs h => b23 s t (a12 s hs) (b12 s t hs h),
         fun t s ht h => c23 t s (a12 t ht) (c12 t s ht h)⟩

/-- `ensureEntry` on a present key is the identity. -/
theorem ensureEntry_of_hasEntry {g : List (String × GraphEntry)} {k : String}
    (h : hasEntry g k) : ensureEntry g k = g := by
  unfold hasEntry at h
  unfold ensureEntry
  simp [h]

/-- `ensureEntry` on an absent key appends the empty record. -/
theorem ensureEntry_of_absent {g : List (String × GraphEntry)} {k : String}
    (h : ¬ hasEntry g k) : ensureEntry g k
      = g ++ [(k, ({ outgoing := [], incoming := [] } : GraphEntry))] := by
  unfold hasEntry at h
  unfold ensureEntry
  simp only [Bool.not_eq_true] at h
  simp [h]

/-- After `ensureEntry` the key is present. -/
theorem hasEntry_ensureEntry_self (g : List (String × GraphEntry)) (k : String) :
    hasEntry (ensureEntry g k) k := by
  by_cases h : hasEntry g k
  · rw [ensureEntry_of_hasEntry h]; exact h
  · rw [ensureEntry_of_absent h]
    unfold hasEntry at h ⊢
    simp only [Bool.not_eq_true] at h
    have hnone : dictLookup g k = none := by
      rcases hl : dictLookup g k with _ | v
      · rfl
      · rw [hl] at h; simp at h
    rw [dictLookup_append_self hnone]
    rfl

/-- `ensureEntry` only grows the graph. -/
theorem graphLE_ensureEntry (g : List (String × GraphEntry)) (k : String) :
    graphLE g (ensureEntry g k) := by
  by_cases h : hasEntry g k
  · rw [ensureEntry_of_hasEntry h]; exact graphLE_refl g
  · rw [ensureEntry_of_absent h]
    refine ⟨?_, ?_, ?_⟩
    · intro k' hk'
      unfold hasEntry at hk' ⊢
      rcases hl : dictLookup g k' with _ | v
      · rw [hl] at hk'; simp at hk'
      · rw [dictLookup_append_of_some hl]; rfl
    · intro src tgt hsrc hout p hp hpk
      rcases List.mem_append.mp hp with hp' | hp'
      · exact hout p hp' hpk
      · simp at hp'
        subst hp'
        exfalso
        exact h (by rw [← hpk] at hsrc; exact hsrc)
    · intro tgt src htgt hin p hp hpk
      rcases List.mem_append.mp hp with hp' | hp'
      · exact hin p hp' hpk
      · simp at hp'
        subst hp'
        exfalso
        exact h (by rw [← hpk] at htgt; exact htgt)

/-- The entry transformation of `addOutgoing` preserves keys. -/
theorem addOutgoing_key (src tgt txt : String) :
    ∀ p : String × GraphEntry,
      ((fun p => if p.1 == src then
          (p.1,
            if (p.2.outgoing.map (·.target)).contains tgt then p.2
            else { p.2 with outgoing := p.2.outgoing ++ [{ target := tgt, text := txt }] })
        else p) p).1 = p.1 := by
  intro p
  dsimp only
  split <;> rfl

/-- The entry transformation of `addIncoming` preserves keys. -/
theorem addIncoming_key (tgt src txt : String) :
    ∀ p : String × GraphEntry,
      ((fun p => if p.1 == tgt then
          (p.1,
            if (p.2.incoming.map (·.source)).contains src then p.2
            else { p.2 with incoming := p.2.incoming ++ [{ source := src, text := txt }] })
        else p) p).1 = p.1 := by
  intro p
  dsimp only
  split <;> rfl

/-- `addOutgoing` only grows the graph. -/
theorem graphLE_addOutgoing (g : List (String × GraphEntry)) (src tgt txt : String) :
    graphLE g (addOutgoing g src tgt txt) := by
  refine ⟨?_, ?_, ?_⟩
  · intro k hk
    unfold hasEntry at hk ⊢
    unfold addOutgoing
    rw [dictLookup_map_keys _ (addOutgoing_key src tgt txt) g k]
    unfold dictLookup at hk
    cases hf : g.find? (fun p => p.1 == k)
    · rw [hf] at hk; simp at hk
    · rfl
  · intro s t _ hout p' hp' hpk
    unfold addOutgoing at hp'
    rcases List.mem_map.mp hp' with ⟨q, hq, hqe⟩
    have hq1 : q.1 = p'.1 := by
      rw [← hqe]; exact (addOutgoing_key src tgt txt q).symm
    have hqs : q.1 = s := by rw [hq1, hpk]
    have hcont := hout q hq hqs
    rw [← hqe]
    dsimp only
    split
    · split
      · exact hcont
      · simp at hcont ⊢
        exact Or.inl hcont
    · exact hcont
  · intro t s _ hin p' hp' hpk
    unfold addOutgoing at hp'
    rcases List.mem_map.mp hp' with ⟨q, hq, hqe⟩
    have hq1 : q.1 = p'.1 := by
      rw [← hqe]; exact (addOutgoing_key src tgt txt q).symm
    have hqs : q.1 = t := by rw [hq1, hpk]
    have hcont := hin q hq hqs
    rw [← hqe]
    dsimp only
    split
    · split
      · exact hcont
      · exact hcont
    · exact hcont

/-- `addIncoming` only grows the graph. -/
theorem graphLE_addIncoming (g : List (String × GraphEntry)) (tgt src txt : String) :
    graphLE g (addIncoming g tgt src txt) := by
  refine ⟨?_, ?_, ?_⟩
  · intro k hk
    unfold hasEntry at hk ⊢
    unfold addIncoming
    rw [dictLookup_map_keys _ (addIncoming_key tgt src txt) g k]
    unfold dictLookup at hk
    cases hf : g.find? (fun p => p.1 == k)
    · rw [hf] at hk; simp at hk
    · rfl
  · intro s t _ hout p' hp' hpk
    unfold addIncoming at hp'
    rcases List.mem_map.mp hp' with ⟨q, hq, hqe⟩
    have hq1 : q.1 = p'.1 := by
      rw [← hqe]; exact (addIncoming_key tgt src txt q).symm
    have hqs : q.1 = s := by rw [hq1, hpk]
    have hcont := hout q hq hqs
    rw [← hqe]
    dsimp only
    split
    · split
      · exact hcont
      · exact hcont
    · exact hcont
  · intro t s _ hin p' hp' hpk
    unfold addIncoming at hp'
    rcases List.mem_map.mp hp' with ⟨q, hq, hqe⟩
    have hq1 : q.1 = p'.1 := by
      rw [← hqe]; exact (addIncoming_key tgt src txt q).symm
    have hqs : q.1 = t := by rw [hq1, hpk]
    have hcont := hin q hq hqs
    rw [← hqe]
    dsimp only
    split
    · split
      · exact hcont
      · simp at hcont ⊢
        exact Or.inl hcont
    · exact hcont

/-- `processChoice` only grows the graph. -/
theorem graphLE_processChoice (src : String) (g : List (String × GraphEntry))
    (c : Choice) : graphLE g (processChoice src g c) := by
  unfold processChoice
  split
  · exact graphLE_trans (graphLE_addOutgoing g src c.nextScene c.text)
      (graphLE_trans (graphLE_ensureEntry _ c.nextScene)
        (graphLE_addIncoming _ c.nextScene src c.text))
  · exact graphLE_refl g

/-- `processEntry` only grows the graph. -/
theorem graphLE_processEntry (src : String) (g : List (String × GraphEntry))
    (d : DialogueEntry) : graphLE g (processEntry src g d) := by
  unfold processEntry
  cases d.choices with
  | none => exact graphLE_refl g
  | some cs =>
    exact foldl_rel graphLE graphLE_refl graphLE_trans (processChoice src)
      (graphLE_processChoice src) cs g

/-- `processSceneG` only grows the graph. -/
theorem graphLE_processSceneG (g : List (String × GraphEntry)) (sc : Scene) :
    graphLE g (processSceneG g sc) := by
  unfold processSceneG
  exact graphLE_trans (graphLE_ensureEntry g sc.id)
    (foldl_rel graphLE graphLE_refl graphLE_trans (processEntry sc.id)
      (graphLE_processEntry sc.id) sc.dialogue _)

/-- The whole per-script fold only grows the graph. -/
theorem graphLE_updateFold (g : List (String × GraphEntry)) (scenes : List Scene) :
    graphLE g (scenes.foldl processSceneG g) :=
  foldl_rel graphLE graphLE_refl graphLE_trans processSceneG graphLE_processSceneG scenes g

/-- A recorded choice fact survives monotone growth. -/
theorem choiceDone_mono {g g' : List (String × GraphEntry)} (h : graphLE g g')
    {src : String} {c : Choice} (hsrc : hasEntry g src)
    (hc : choiceDone g src c) : choiceDone g' src c := by
  intro hne
  obtain ⟨hout, hent, hin⟩ := hc hne
  exact ⟨h.2.1 src c.nextScene hsrc hout, h.1 c.nextScene hent,
    h.2.2 c.nextScene src hent hin⟩

/-- A recorded scene fact survives monotone growth. -/
theorem sceneDone_mono {g g' : List (String × GraphEntry)} (h : graphLE g g')
    {sc : Scene} (hsc : sceneDone g sc) : sceneDone g' sc := by
  obtain ⟨hent, hcs⟩ := hsc
  exact ⟨h.1 sc.id hent,
    fun d hd cs hcs' c hc => choiceDone_mono h hent (hcs d hd cs hcs' c hc)⟩

/-- After `addOutgoing` every record keyed `src` lists `tgt`. -/
theorem outHolds_addOutgoing_self (g : List (String × GraphEntry))
    (src tgt txt : String) : outHolds (addOutgoing g src tgt txt) src tgt := by
  intro p' hp' hpk
  unfold addOutgoing at hp'
  rcases List.mem_map.mp hp' with ⟨q, hq, hqe⟩
  have hq1 : q.1 = p'.1 := by
    rw [← hqe]; exact (addOutgoing_key src tgt txt q).symm
  have hqs : (q.1 == src) = true := by simp [hq1, hpk]
  rw [← hqe]
  dsimp only
  rw [if_pos hqs]
  by_cases hc : (q.2.outgoing.map (·.target)).contains tgt
  · rw [if_pos hc]; exact hc
  · rw [if_neg hc]
    simp

/-- After `addIncoming` every record keyed `tgt` lists `src`. -/
theorem inHolds_addIncoming_self (g : List (String × GraphEntry))
    (tgt src txt : String) : inHolds (addIncoming g tgt src txt) tgt src := by
  intro p' hp' hpk
  unfold addIncoming at hp'
  rcases List.mem_map.mp hp' with ⟨q, hq, hqe⟩
  have hq1 : q.1 = p'.1 := by
    rw [← hqe]; exact (addIncoming_key tgt src txt q).symm
  have hqs : (q.1 == tgt) = true := by simp [hq1, hpk]
  rw [← hqe]
  dsimp only
  rw [if_pos hqs]
  by_cases hc : (q.2.incoming.map (·.source)).contains src
  · rw [if_pos hc]; exact hc
  · rw [if_neg hc]
    simp

/-- Processing one choice records exactly its adjacency facts. -/
theorem choiceDone_processChoice (g : List (String × GraphEntry)) (src : String)
    (c : Choice) (hsrc : hasEntry g src) :
    choiceDone (processChoice src g c) src c := by
  unfold processChoice
  split
  · intro _
    have h1 := graphLE_addOutgoing g src c.nextScene c.text
    have hsrc1 : hasEntry (addOutgoing g src c.nextScene c.text) src := h1.1 src hsrc
    have h2 := graphLE_ensureEntry (addOutgoing g src c.nextScene c.text) c.nextScene
    have hsrc2 := h2.1 src hsrc1
    have h3 := graphLE_addIncoming (ensureEntry (addOutgoing g src c.nextScene c.text)
      c.nextScene) c.nextScene src c.text
    refine ⟨?_, ?_, ?_⟩
    · exact h3.2.1 src c.nextScene hsrc2
        (h2.2.1 src c.nextScene hsrc1 (outHolds_addOutgoing_self g src c.nextScene c.text))
    · exact h3.1 c.nextScene (hasEntry_ensureEntry_self _ c.nextScene)
    · exact inHolds_addIncoming_self _ c.nextScene src c.text
  · rename_i hne
    intro hne'
    exfalso
    simp at hne
    exact hne' hne

/-- Folding a choice list records every choice of the list. -/
theorem choices_foldl_done (src : String) (cs : List Choice) :
    ∀ g : List (String × GraphEntry), hasEntry g src →
      hasEntry (cs.foldl (processChoice src) g) src ∧
      ∀ c ∈ cs, choiceDone (cs.foldl (processChoice src) g) src c := by
  induction cs with
  | nil => intro g hg; exact ⟨hg, by simp⟩
  | cons c t ih =>
    intro g hg
    have hstep := graphLE_processChoice src g c
    have hg1 : hasEntry (processChoice src g c) src := hstep.1 src hg
    obtain ⟨hgF, hrest⟩ := ih (processChoice src g c) hg1
    have hLE : graphLE (processChoice src g c) (t.foldl (processChoice src)
      (processChoice src g c)) :=
      foldl_rel graphLE graphLE_refl graphLE_trans (processChoice src)
        (graphLE_processChoice src) t _
    refine ⟨hgF, ?_⟩
    intro c' hc'
    rcases List.mem_cons.mp hc' with rfl | hc't
    · exact choiceDone_mono hLE hg1 (choiceDone_processChoice g src c' hg)
    · exact hrest c' hc't

/-- Folding a dialogue list records every choice of every entry. -/
theorem dialogue_foldl_done (src : String) (ds : List DialogueEntry) :
    ∀ g : List (String × GraphEntry), hasEntry g src →
      hasEntry (ds.foldl (processEntry src) g) src ∧
      ∀ d ∈ ds, ∀ cs, d.choices = some cs → ∀ c ∈ cs,
        choiceDone (ds.foldl (processEntry src) g) src c := by
  induction ds with
  | nil => intro g hg; exact ⟨hg, by simp⟩
  | cons d t ih =>
    intro g hg
    have hstep := graphLE_processEntry src g d
    have hg1 : hasEntry (processEntry src g d) src := hstep.1 src hg
    obtain ⟨hgF, hrest⟩ := ih (processEntry src g d) hg1
    have hLE : graphLE (processEntry src g d)
        (t.foldl (processEntry src) (processEntry src g d)) :=
      foldl_rel graphLE graphLE_refl graphLE_trans (processEntry src)
        (graphLE_processEntry src) t _
    refine ⟨hgF, ?_⟩
    intro d' hd' cs hcs c hc
    rcases List.mem_cons.mp hd' with rfl | hd't
    · have hdone : choiceDone (processEntry src g d') src c := by
        unfold processEntry
        rw [hcs]
        exact (choices_foldl_done src cs g hg).2 c hc
      exact choiceDone_mono hLE hg1 hdone
    · exact hrest d' hd't cs hcs c hc

/-- Processing one scene records its whole contribution. -/
theorem sceneDone_processSceneG (g : List (String × GraphEntry)) (sc : Scene) :
    sceneDone (processSceneG g sc) sc := by
  unfold processSceneG
  have h0 := hasEntry_ensureEntry_self g sc.id
  obtain ⟨h1, h2⟩ := dialogue_foldl_done sc.id sc.dialogue (ensureEntry g sc.id) h0
  exact ⟨h1, h2⟩

/-- After a full update, every scene of the script is recorded. -/
theorem update_graph_done (scenes : List Scene) :
    ∀ g : List (String × GraphEntry), ∀ sc ∈ scenes,
      sceneDone (scenes.foldl processSceneG g) sc := by
  induction scenes with
  | nil => intro g sc h; simp at h
  | cons s0 t ih =>
    intro g sc hsc
    rcases List.mem_cons.mp hsc with rfl | hsct
    · have hLE : graphLE (processSceneG g sc) (t.foldl processSceneG (processSceneG g sc)) :=
        graphLE_updateFold _ t
      exact sceneDone_mono hLE (sceneDone_processSceneG g sc)
    · exact ih (processSceneG g s0) sc hsct

/-- `addOutgoing` is the identity once its edge is recorded everywhere. -/
theorem addOutgoing_of_outHolds {g : List (String × GraphEntry)} {src tgt : String}
    (h : outHolds g src tgt) (txt : String) : addOutgoing g src tgt txt = g := by
  unfold addOutgoing
  refine map_self_of_eq ?_
  intro p hp
  by_cases hk : p.1 == src
  · rw [if_pos hk]
    rw [if_pos (h p hp (by simpa using hk))]
  · rw [if_neg hk]

/-- `addIncoming` is the identity once its edge is recorded everywhere. -/
theorem addIncoming_of_inHolds {g : List (String × GraphEntry)} {tgt src : String}
    (h : inHolds g tgt src) (txt : String) : addIncoming g tgt src txt = g := by
  unfold addIncoming
  refine map_self_of_eq ?_
  intro p hp
  by_cases hk : p.1 == tgt
  · rw [if_pos hk]
    rw [if_pos (h p hp (by simpa using hk))]
  · rw [if_neg hk]

/-- `processChoice` is the identity on a recorded choice. -/
theorem processChoice_of_done {g : List (String × GraphEntry)} {src : String}
    {c : Choice} (h : choiceDone g src c) : processChoice src g c = g := by
  unfold processChoice
  split
  · rename_i hne
    obtain ⟨hout, hent, hin⟩ := h (by simpa using hne)
    simp only [addOutgoing_of_outHolds hout, ensureEntry_of_hasEntry hent,
      addIncoming_of_inHolds hin]
  · rfl

/-- A choice-list fold is the identity once every choice is recorded. -/
theorem foldl_processChoice_of_done {g : List (String × GraphEntry)} {src : String} :
    ∀ cs : List Choice, (∀ c ∈ cs, choiceDone g src c) →
      cs.foldl (processChoice src) g = g
  | [], _ => rfl
  | c :: t, h => by
    rw [List.foldl_cons, processChoice_of_done (h c (List.mem_cons_self c t))]
    exact foldl_processChoice_of_done t (fun c' hc' => h c' (List.mem_cons_of_mem c hc'))

/-- `processEntry` is the identity on a recorded entry. -/
theorem processEntry_of_done {g : List (String × GraphEntry)} {src : String}
    {d : DialogueEntry}
    (h : ∀ cs, d.choices = some cs → ∀ c ∈ cs, choiceDone g src c) :
    processEntry src g d = g := by
  unfold processEntry
  cases hcs : d.choices with
  | none => rfl
  | some cs => exact foldl_processChoice_of_done cs (h cs hcs)

/-- A dialogue fold is the identity once every entry is recorded. -/
theorem foldl_processEntry_of_done {g : List (String × GraphEntry)} {src : String} :
    ∀ ds : List DialogueEntry,
      (∀ d ∈ ds, ∀ cs, d.choices = some cs → ∀ c ∈ cs, choiceDone g src c) →
      ds.foldl (processEntry src) g = g
  | [], _ => rfl
  | d :: t, h => by
    rw [List.foldl_cons,
      processEntry_of_done (fun cs hcs c hc => h d (List.mem_cons_self d t) cs hcs c hc)]
    exact foldl_processEntry_of_done t
      (fun d' hd' cs hcs c hc => h d' (List.mem_cons_of_mem d hd') cs hcs c hc)

/-- `processSceneG` is the identity on a recorded scene. -/
theorem processSceneG_of_done {g : List (String × GraphEntry)} {sc : Scene}
    (h : sceneDone g sc) : processSceneG g sc = g := by
  unfold processSceneG
  rw [ensureEntry_of_hasEntry h.1]
  exact foldl_processEntry_of_done sc.dialogue h.2

/-- The per-script fold is the identity once every scene is recorded. -/
theorem updateFold_of_done {g : List (String × GraphEntry)} :
    ∀ scenes : List Scene, (∀ sc ∈ scenes, sceneDone g sc) →
      scenes.foldl processSceneG g = g
  | [], _ => rfl
  | s0 :: t, h => by
    rw [List.foldl_cons, processSceneG_of_done (h s0 (List.mem_cons_self s0 t))]
    exact updateFold_of_done t (fun sc hsc => h sc (List.mem_cons_of_mem s0 hsc))

/-- The graph component of `update_scene_graph` is the pure graph fold. -/
theorem update_scene_graph_graph (s : Script) (st : Store) :
    (update_scene_graph s st).sceneGraph
      = s.scenes.foldl processSceneG st.sceneGraph := by
  unfold update_scene_graph
  generalize s.scenes = l
  induction l generalizing st with
  | nil => rfl
  | cons sc t ih => exact ih (processScene st sc)

/-- `graphExt` is reflexive. -/
theorem graphExt_refl (g : List (String × GraphEntry)) : graphExt g g :=
  fun _ e h => ⟨e, h, ⟨[], by simp⟩, ⟨[], by simp⟩⟩

/-- `graphExt` is transitive. -/
theorem graphExt_trans {g1 g2 g3 : List (String × GraphEntry)}
    (h12 : graphExt g1 g2) (h23 : graphExt g2 g3) : graphExt g1 g3 := by
  intro sid e h
  obtain ⟨e', h', ⟨t1, ht1⟩, ⟨t2, ht2⟩⟩ := h12 sid e h
  obtain ⟨e'', h'', ⟨u1, hu1⟩, ⟨u2, hu2⟩⟩ := h23 sid e' h'
  exact ⟨e'', h'', ⟨t1 ++ u1, by rw [hu1, ht1, List.append_assoc]⟩,
    ⟨t2 ++ u2, by rw [hu2, ht2, List.append_assoc]⟩⟩

/-- `ensureEntry` never deletes or replaces a record. -/
theorem graphExt_ensureEntry (g : List (String × GraphEntry)) (k : String) :
    graphExt g (ensureEntry g k) := by
  by_cases h : hasEntry g k
  · rw [ensureEntry_of_hasEntry h]; exact graphExt_refl g
  · rw [ensureEntry_of_absent h]
    intro sid e he
    exact ⟨e, dictLookup_append_of_some he _, ⟨[], by simp⟩, ⟨[], by simp⟩⟩

/-- `addOutgoing` never deletes or replaces a record, only appends. -/
theorem graphExt_addOutgoing (g : List (String × GraphEntry)) (src tgt txt : String) :
    graphExt g (addOutgoing g src tgt txt) := by
  intro sid e he
  unfold dictLookup at he
  rcases hf : g.find? (fun p => p.1 == sid) with _ | q
  · rw [hf] at he; simp at he
  · rw [hf] at he
    simp only [Option.map, Option.some.injEq] at he
    unfold addOutgoing
    rw [dictLookup_map_keys _ (addOutgoing_key src tgt txt) g sid, hf]
    simp only [Option.map]
    split
    · split
      · exact ⟨q.2, by rw [he], ⟨[], by simp [he]⟩, ⟨[], by simp [he]⟩⟩
      · exact ⟨_, rfl, ⟨[{ target := tgt, text := txt }], by simp [he]⟩,
          ⟨[], by simp [he]⟩⟩
    · exact ⟨q.2, by rw [he], ⟨[], by simp [he]⟩, ⟨[], by simp [he]⟩⟩

/-- `addIncoming` never deletes or replaces a record, only appends. -/
theorem graphExt_addIncoming (g : List (String × GraphEntry)) (tgt src txt : String) :
    graphExt g (addIncoming g tgt src txt) := by
  intro sid e he
  unfold dictLookup at he
  rcases hf : g.find? (fun p => p.1 == sid) with _ | q
  · rw [hf] at he; simp at he
  · rw [hf] at he
    simp only [Option.map, Option.some.injEq] at he
    unfold addIncoming
    rw [dictLookup_map_keys _ (addIncoming_key tgt src txt) g sid, hf]
    simp only [Option.map]
    split
    · split
      · exact ⟨q.2, by rw [he], ⟨[], by simp [he]⟩, ⟨[], by simp [he]⟩⟩
      · exact ⟨_, rfl, ⟨[], by simp [he]⟩,
          ⟨[{ source := src, text := txt }], by simp [he]⟩⟩
    · exact ⟨q.2, by rw [he], ⟨[], by simp [he]⟩, ⟨[], by simp [he]⟩⟩

/-- `processChoice` never deletes or replaces a record. -/
theorem graphExt_processChoice (src : String) (g : List (String × GraphEntry))
    (c : Choice) : graphExt g (processChoice src g c) := by
  unfold processChoice
  split
  · exact graphExt_trans (graphExt_addOutgoing g src c.nextScene c.text)
      (graphExt_trans (graphExt_ensureEntry _ c.nextScene)
        (graphExt_addIncoming _ c.nextScene src c.text))
  · exact graphExt_refl g

/-- `processEntry` never deletes or replaces a record. -/
theorem graphExt_processEntry (src : String) (g : List (String × GraphEntry))
    (d : DialogueEntry) : graphExt g (processEntry src g d) := by
  unfold processEntry
  cases d.choices with
  | none => exact graphExt_refl g
  | some cs =>
    exact foldl_rel graphExt graphExt_refl graphExt_trans (processChoice src)
      (graphExt_processChoice src) cs g

/-- `processSceneG` never deletes or replaces a record. -/
theorem graphExt_processSceneG (g : List (String × GraphEntry)) (sc : Scene) :
    graphExt g (processSceneG g sc) := by
  unfold processSceneG
  exact graphExt_trans (graphExt_ensureEntry g sc.id)
    (foldl_rel graphExt graphExt_refl graphExt_trans (processEntry sc.id)
      (graphExt_processEntry sc.id) sc.dialogue _)

/-! ### Claim C7 -/

/-- C7: `update_scene_graph` is idempotent and merging: running it a second
time on the same script leaves the scene graph identical (every edge it
would add is already recorded, deduplicated by target per source for
outgoing edges and by source per target for incoming ones, with the
first-seen edge text kept), and a run never deletes or replaces an index
entry already present — the entry survives at its key with its previous
outgoing and incoming lists as prefixes. -/
theorem c7_update_idempotent_merging (s : Script) (st : Store) :
    (update_scene_graph s (update_scene_graph s st)).sceneGraph
      = (update_scene_graph s st).sceneGraph ∧
    ∀ sid e, dictLookup st.sceneGraph sid = some e →
      ∃ e', dictLookup (update_scene_graph s st).sceneGraph sid = some e' ∧
        (∃ t1, e'.outgoing = e.outgoing ++ t1) ∧
        (∃ t2, e'.incoming = e.incoming ++ t2) := by
  constructor
  · rw [update_scene_graph_graph, update_scene_graph_graph]
    exact updateFold_of_done s.scenes
      (fun sc hsc => update_graph_done s.scenes st.sceneGraph sc hsc)
  · rw [update_scene_graph_graph]
    exact foldl_rel graphExt graphExt_refl graphExt_trans processSceneG
      graphExt_processSceneG s.scenes st.sceneGraph

/-- C7, witness: a second update on a concrete script is a no-op on the
graph, and a concrete pre-existing entry survives with its lists as
prefixes. -/
theorem c7_witness :
    (update_scene_graph wC1 (update_scene_graph wC1
        { scenes := [], inProgress := [],
          sceneGraph := [("scene_0", { outgoing := [], incoming := [] })] })).sceneGraph
      = (update_scene_graph wC1
        { scenes := [], inProgress := [],
          sceneGraph := [("scene_0", { outgoing := [], incoming := [] })] }).sceneGraph ∧
    ∃ e', dictLookup (update_scene_graph wC1
        { scenes := [], inProgress := [],
          sceneGraph := [("scene_0", { outgoing := [], incoming := [] })] }).sceneGraph
        "scene_0" = some e' ∧
      (∃ t1, e'.outgoing = [] ++ t1) ∧ (∃ t2, e'.incoming = [] ++ t2) := by
  have h := c7_update_idempotent_merging wC1
    { scenes := [], inProgress := [],
      sceneGraph := [("scene_0", { outgoing := [], incoming := [] })] }
  exact ⟨h.1, h.2 "scene_0" { outgoing := [], incoming := [] } (by decide)⟩

/-! ### Validator lemmas (claims C1, C2, C10) -/

/-- Every ref collected from a scene carries that scene's id as source. -/
theorem mem_sceneRefs_source {sc : Scene} {r : Ref} (h : r ∈ sceneRefs sc) :
    r.source = sc.id := by
  unfold sceneRefs at h
  rcases List.mem_flatten.mp h with ⟨l, hl, hr⟩
  rcases List.mem_map.mp hl with ⟨d, _, rfl⟩
  unfold choiceRefs at hr
  cases hdc : d.choices with
  | none => simp [hdc] at hr
  | some cs =>
    simp only [hdc] at hr
    rcases List.mem_map.mp hr with ⟨c, _, rfl⟩
    rfl

/-- Every collected ref's source is a scene id of the script. -/
theorem mem_collectRefs_source {s : Script} {r : Ref} (h : r ∈ collectRefs s) :
    r.source ∈ sceneIds s := by
  unfold collectRefs at h
  rcases List.mem_flatten.mp h with ⟨l, hl, hr⟩
  rcases List.mem_map.mp hl with ⟨sc, hsc, rfl⟩
  rw [mem_sceneRefs_source hr]
  exact List.mem_map.mpr ⟨sc, hsc, rfl⟩

/-- A choice sitting in a scene's dialogue yields its ref in `sceneRefs`. -/
theorem ref_of_choice {sc : Scene} {d : DialogueEntry} {cs : List Choice}
    {c : Choice} (hd : d ∈ sc.dialogue) (hcs : d.choices = some cs) (hc : c ∈ cs) :
    ({ source := sc.id, text := c.text, target := c.nextScene } : Ref) ∈ sceneRefs sc := by
  unfold sceneRefs
  refine List.mem_flatten.mpr ⟨choiceRefs sc.id d, List.mem_map.mpr ⟨d, hd, rfl⟩, ?_⟩
  unfold choiceRefs
  rw [hcs]
  exact List.mem_map.mpr ⟨c, hc, rfl⟩

/-- A choice sitting in the script yields its ref in `collectRefs`. -/
theorem ref_of_choice_script {s : Script} {sc : Scene} {d : DialogueEntry}
    {cs : List Choice} {c : Choice} (hsc : sc ∈ s.scenes) (hd : d ∈ sc.dialogue)
    (hcs : d.choices = some cs) (hc : c ∈ cs) :
    ({ source := sc.id, text := c.text, target := c.nextScene } : Ref) ∈ collectRefs s := by
  unfold collectRefs
  exact List.mem_flatten.mpr ⟨sceneRefs sc, List.mem_map.mpr ⟨sc, hsc, rfl⟩,
    ref_of_choice hd hcs hc⟩

/-- The replacement target is always a known scene id. -/
theorem newTarget_mem {ids : List String} (hne : ids ≠ []) (tgt : String) :
    newTarget ids tgt ∈ ids := by
  unfold newTarget
  rcases hf : ids.filter (fun sid => strContainsSub sid tgt || strContainsSub tgt sid)
    with _ | ⟨sid, rest⟩
  · cases ids with
    | nil => exact absurd rfl hne
    | cons i t => exact List.mem_cons_self i t
  · have : sid ∈ ids.filter (fun sid => strContainsSub sid tgt || strContainsSub tgt sid) := by
      rw [hf]; exact List.mem_cons_self sid rest
    exact List.mem_of_mem_filter this

/-- `invalidTarget` is the boolean negation of ref validity. -/
theorem invalidTarget_iff {ids : List String} {t : String} :
    invalidTarget ids t = true ↔ ¬ (t = "exit" ∨ t ∈ ids) := by
  unfold invalidTarget
  simp [not_or]
  tauto

/-- `applyFix` keeps the scene-id list. -/
theorem sceneIds_applyFix (ids : List String) (s : Script) (r : Ref) :
    sceneIds (applyFix ids s r) = sceneIds s := by
  unfold sceneIds applyFix
  rw [List.map_map]
  refine List.map_congr_left ?_
  intro sc _
  dsimp only [Function.comp]
  split <;> rfl

/-- `fixRefs` keeps the scene-id list. -/
theorem sceneIds_fixRefs (ids : List String) :
    ∀ (L : List Ref) (s : Script), sceneIds (fixRefs ids L s) = sceneIds s := by
  intro L
  induction L with
  | nil => intro s; rfl
  | cons r0 t ih =>
    intro s
    show sceneIds (fixRefs ids t (applyFix ids s r0)) = sceneIds s
    rw [ih (applyFix ids s r0), sceneIds_applyFix]

/-- `repairOne` keeps the scene-id list. -/
theorem sceneIds_repairOne (pick : String → List String → String)
    (closure : List String) (s : Script) (sid : String) :
    sceneIds (repairOne pick closure s sid) = sceneIds s := by
  unfold sceneIds repairOne
  rw [List.map_map]
  refine List.map_congr_left ?_
  intro sc _
  dsimp only [Function.comp]
  split <;> rfl

/-- The repair fold keeps the scene-id list. -/
theorem sceneIds_repairFold (pick : String → List String → String)
    (closure : List String) :
    ∀ (U : List String) (s : Script),
      sceneIds (U.foldl (repairOne pick closure) s) = sceneIds s := by
  intro U
  induction U with
  | nil => intro s; rfl
  | cons u t ih =>
    intro s
    rw [List.foldl_cons, ih (repairOne pick closure s u), sceneIds_repairOne]

/-- One `applyFix` pass transforms the collected refs pointwise by
`refFix`. -/
theorem collectRefs_applyFix (ids : List String) (s : Script) (r0 : Ref) :
    collectRefs (applyFix ids s r0) = (collectRefs s).map (refFix ids r0) := by
  unfold collectRefs applyFix
  dsimp only
  rw [List.map_map, List.map_flatten]
  rw [List.map_map]
  refine congrArg List.flatten (List.map_congr_left ?_)
  intro sc _
  dsimp only [Function.comp]
  by_cases h : sc.id == r0.source
  · rw [if_pos h]
    unfold sceneRefs
    dsimp only
    rw [List.map_map, List.map_flatten, List.map_map]
    refine congrArg List.flatten (List.map_congr_left ?_)
    intro d _
    dsimp only [Function.comp]
    unfold choiceRefs
    dsimp only
    cases hcs : d.choices with
    | none => rfl
    | some cs =>
      dsimp only [Option.map]
      rw [List.map_map, List.map_map]
      refine List.map_congr_left ?_
      intro c _
      dsimp only [Function.comp]
      unfold fixChoice refFix
      by_cases hc : (c.text == r0.text && c.nextScene == r0.target) = true
      · rw [if_pos hc]
        have : ((sc.id == r0.source) && (c.text == r0.text) && (c.nextScene == r0.target))
            = true := by
          rw [Bool.and_assoc, h, hc]
          rfl
        simp only [this, if_pos]
      · rw [if_neg hc]
        have : ((sc.id == r0.source) && (c.text == r0.text) && (c.nextScene == r0.target))
            = false := by
          rw [Bool.and_assoc]
          simp only [Bool.not_eq_true] at hc
          rw [hc, Bool.and_false]
        simp only [this]
        rfl
  · rw [if_neg h]
    refine (map_self_of_eq ?_).symm
    intro r hr
    have hsrc := mem_sceneRefs_source hr
    unfold refFix
    have : (r.source == r0.source) = false := by
      simp only [Bool.not_eq_true] at h
      rw [hsrc]
      exact h
    rw [this]
    simp

/-- The reference-repair fold makes every collected ref valid: every ref is
valid already or on the invalid list, the head of the list fixes every ref
matching it, and fixed refs stay fixed. -/
theorem fixRefs_valid {ids : List String} (hne : ids ≠ []) :
    ∀ (L : List Ref) (s : Script),
      (∀ r0 ∈ L, invalidTarget ids r0.target = true) →
      (∀ r ∈ collectRefs s, refValid ids r ∨ r ∈ L) →
      ∀ r ∈ collectRefs (fixRefs ids L s), refValid ids r := by
  intro L
  induction L with
  | nil =>
    intro s _ hinv r hr
    rcases hinv r hr with h | h
    · exact h
    · simp at h
  | cons r0 t ih =>
    intro s hL hinv r hr
    refine ih (applyFix ids s r0) (fun r' hr' => hL r' (List.mem_cons_of_mem r0 hr')) ?_ r hr
    intro r' hr'
    rw [collectRefs_applyFix] at hr'
    rcases List.mem_map.mp hr' with ⟨q, hq, rfl⟩
    unfold refFix
    by_cases hcond : (q.source == r0.source && q.text == r0.text && q.target == r0.target) = true
    · rw [if_pos hcond]
      left
      right
      exact newTarget_mem hne r0.target
    · rw [if_neg hcond]
      rcases hinv q hq with h | h
      · exact Or.inl h
      · rcases List.mem_cons.mp h with rfl | ht
        · exfalso
          apply hcond
          simp
        · exact Or.inr ht

/-- A ref with a valid (known-id) target survives the whole
reference-repair fold untouched. -/
theorem fixRefs_keeps {ids : List String} :
    ∀ (L : List Ref) (s : Script),
      (∀ r0 ∈ L, invalidTarget ids r0.target = true) →
      ∀ r ∈ collectRefs s, r.target ∈ ids → r ∈ collectRefs (fixRefs ids L s) := by
  intro L
  induction L with
  | nil => intro s _ r hr _; exact hr
  | cons r0 t ih =>
    intro s hL r hr htgt
    refine ih (applyFix ids s r0) (fun r' hr' => hL r' (List.mem_cons_of_mem r0 hr')) r ?_ htgt
    rw [collectRefs_applyFix]
    refine List.mem_map.mpr ⟨r, hr, ?_⟩
    unfold refFix
    have h0 := hL r0 (List.mem_cons_self r0 t)
    rw [invalidTarget_iff] at h0
    have : (r.target == r0.target) = false := by
      have : r.target ≠ r0.target := by
        intro he
        exact h0 (Or.inr (he ▸ htgt))
      simp [this]
    rw [Bool.and_comm (r.source == r0.source), Bool.and_assoc]
    rw [this]
    simp

/-- `appendChoiceCore` relates the old and new dialogue entry lists
pointwise: each entry is untouched or has the new choice appended to its
(present) choices. -/
theorem appendChoiceCore_rel (c : Choice) :
    ∀ ds : List DialogueEntry,
      List.Forall₂ (fun d d' => d' = d ∨
        ∃ cs, d.choices = some cs ∧ d' = { d with choices := some (cs ++ [c]) })
        ds (appendChoiceCore c ds) := by
  intro ds
  induction ds with
  | nil => exact List.Forall₂.nil
  | cons d t ih =>
    unfold appendChoiceCore
    split
    · exact List.Forall₂.cons (Or.inl rfl) ih
    · cases hdc : d.choices with
      | none =>
        simp only [hdc]
        exact List.Forall₂.cons (Or.inl rfl)
          (List.forall₂_same.mpr (fun d' _ => Or.inl rfl))
      | some cs =>
        simp only [hdc]
        exact List.Forall₂.cons (Or.inr ⟨cs, hdc, rfl⟩)
          (List.forall₂_same.mpr (fun d' _ => Or.inl rfl))

/-- Old refs of a dialogue list survive `appendChoiceCore`. -/
theorem appendChoiceCore_refs_superset (c0 : Choice) (sid0 : String) :
    ∀ (ds : List DialogueEntry) (r : Ref),
      r ∈ (ds.map (choiceRefs sid0)).flatten →
      r ∈ ((appendChoiceCore c0 ds).map (choiceRefs sid0)).flatten := by
  intro ds
  induction ds with
  | nil => intro r hr; exact hr
  | cons d t ih =>
    intro r hr
    unfold appendChoiceCore
    split
    · simp only [List.map_cons, List.flatten_cons, List.mem_append] at hr ⊢
      rcases hr with hr | hr
      · exact Or.inl hr
      · exact Or.inr (ih r hr)
    · cases hdc : d.choices with
      | none => simp only [hdc]; exact hr
      | some cs =>
        simp only [hdc]
        simp only [List.map_cons, List.flatten_cons, List.mem_append] at hr ⊢
        rcases hr with hr | hr
        · left
          unfold choiceRefs at hr ⊢
          rw [hdc] at hr
          dsimp only
          rcases List.mem_map.mp hr with ⟨c1, hc1, rfl⟩
          exact List.mem_map.mpr ⟨c1, by simp [hc1], rfl⟩
        · exact Or.inr hr

/-- A ref of an appended dialogue list is an old ref or the appended
choice's ref. -/
theorem appendChoiceCore_refs_sub (c0 : Choice) (sid0 : String) :
    ∀ (ds : List DialogueEntry) (r : Ref),
      r ∈ ((appendChoiceCore c0 ds).map (choiceRefs sid0)).flatten →
      r ∈ (ds.map (choiceRefs sid0)).flatten ∨
        r = { source := sid0, text := c0.text, target := c0.nextScene } := by
  intro ds
  induction ds with
  | nil => intro r hr; exact Or.inl hr
  | cons d t ih =>
    intro r hr
    unfold appendChoiceCore at hr
    split at hr
    · simp only [List.map_cons, List.flatten_cons, List.mem_append] at hr ⊢
      rcases hr with hr | hr
      · exact Or.inl (Or.inl hr)
      · rcases ih r hr with h | h
        · exact Or.inl (Or.inr h)
        · exact Or.inr h
    · cases hdc : d.choices with
      | none => simp only [hdc] at hr; exact Or.inl hr
      | some cs =>
        simp only [hdc] at hr
        simp only [List.map_cons, List.flatten_cons, List.mem_append] at hr ⊢
        rcases hr with hr | hr
        · unfold choiceRefs at hr
          dsimp only at hr
          rcases List.mem_map.mp hr with ⟨c1, hc1, rfl⟩
          rcases List.mem_append.mp hc1 with hc1' | hc1'
          · left; left
            unfold choiceRefs
            rw [hdc]
            exact List.mem_map.mpr ⟨c1, hc1', rfl⟩
          · right
            simp at hc1'
            rw [hc1']
        · exact Or.inl (Or.inr hr)

/-- When some entry carries a `choices` key, the appended choice's ref is
collected. -/
theorem appendChoiceCore_refs_adds (c0 : Choice) (sid0 : String) :
    ∀ ds : List DialogueEntry, (∃ d ∈ ds, d.choices.isSome) →
      ({ source := sid0, text := c0.text, target := c0.nextScene } : Ref)
        ∈ ((appendChoiceCore c0 ds).map (choiceRefs sid0)).flatten := by
  intro ds
  induction ds with
  | nil => rintro ⟨d, hd, -⟩; simp at hd
  | cons d t ih =>
    rintro ⟨d0, hd0, hd0s⟩
    unfold appendChoiceCore
    split
    · rename_i hany
      have ht : ∃ d ∈ t, d.choices.isSome := by
        rcases List.any_eq_true.mp hany with ⟨d', hd', hs'⟩
        exact ⟨d', hd', hs'⟩
      simp only [List.map_cons, List.flatten_cons, List.mem_append]
      exact Or.inr (ih ht)
    · rename_i hany
      cases hdc : d.choices with
      | none =>
        exfalso
        rcases List.mem_cons.mp hd0 with rfl | hd0t
        · rw [hdc] at hd0s; simp at hd0s
        · exact hany (List.any_eq_true.mpr ⟨d0, hd0t, by simpa using hd0s⟩)
      | some cs =>
        simp only [hdc]
        simp only [List.map_cons, List.flatten_cons, List.mem_append]
        left
        unfold choiceRefs
        dsimp only
        exact List.mem_map.mpr ⟨c0, by simp, rfl⟩

/-- Refs survive `repairOne`. -/
theorem collectRefs_repairOne_superset {pick : String → List String → String}
    {closure : List String} {s : Script} {sid : String} {r : Ref}
    (hr : r ∈ collectRefs s) :
    r ∈ collectRefs (repairOne pick closure s sid) := by
  unfold collectRefs at hr ⊢
  rcases List.mem_flatten.mp hr with ⟨l, hl, hrl⟩
  rcases List.mem_map.mp hl with ⟨sc, hsc, rfl⟩
  unfold repairOne
  dsimp only
  rw [List.map_map]
  refine List.mem_flatten.mpr ⟨_, List.mem_map.mpr ⟨sc, hsc, rfl⟩, ?_⟩
  dsimp only [Function.comp]
  by_cases hid : (sc.id == pick sid closure) = true
  · rw [if_pos hid]
    unfold sceneRefs at hrl ⊢
    exact appendChoiceCore_refs_superset _ sc.id sc.dialogue r hrl
  · rw [if_neg hid]
    exact hrl

/-- A ref of a repaired script is an old ref or targets the repaired id. -/
theorem collectRefs_repairOne_sub {pick : String → List String → String}
    {closure : List String} {s : Script} {sid : String} {r : Ref}
    (hr : r ∈ collectRefs (repairOne pick closure s sid)) :
    r ∈ collectRefs s ∨ r.target = sid := by
  unfold collectRefs repairOne at hr
  dsimp only at hr
  rw [List.map_map] at hr
  rcases List.mem_flatten.mp hr with ⟨l, hl, hrl⟩
  rcases List.mem_map.mp hl with ⟨sc, hsc, rfl⟩
  dsimp only [Function.comp] at hrl
  by_cases hid : (sc.id == pick sid closure) = true
  · rw [if_pos hid] at hrl
    unfold sceneRefs at hrl
    dsimp only at hrl
    rcases appendChoiceCore_refs_sub _ sc.id sc.dialogue r hrl with h | h
    · left
      exact List.mem_flatten.mpr ⟨sceneRefs sc, List.mem_map.mpr ⟨sc, hsc, rfl⟩, h⟩
    · right
      rw [h]
  · rw [if_neg hid] at hrl
    left
    exact List.mem_flatten.mpr ⟨sceneRefs sc, List.mem_map.mpr ⟨sc, hsc, rfl⟩, hrl⟩

/-- When the picked source is a scene of the script and carries a
choice-bearing dialogue entry, `repairOne` records the new edge. -/
theorem collectRefs_repairOne_adds {pick : String → List String → String}
    {closure : List String} {s : Script} {sid : String}
    (hsc : ∃ sc ∈ s.scenes, sc.id = pick sid closure ∧ ∃ d ∈ sc.dialogue, d.choices.isSome) :
    ({ source := pick sid closure, text := "Explore a different path", target := sid } : Ref)
      ∈ collectRefs (repairOne pick closure s sid) := by
  rcases hsc with ⟨sc, hscm, hid, hd⟩
  unfold collectRefs repairOne
  dsimp only
  rw [List.map_map]
  refine List.mem_flatten.mpr ⟨_, List.mem_map.mpr ⟨sc, hscm, rfl⟩, ?_⟩
  dsimp only [Function.comp]
  rw [if_pos (by simp [hid])]
  unfold sceneRefs
  dsimp only
  rw [← hid]
  exact appendChoiceCore_refs_adds _ sc.id sc.dialogue hd

/-- Refs survive the whole repair fold. -/
theorem collectRefs_repairFold_superset {pick : String → List String → String}
    {closure : List String} :
    ∀ (U : List String) (s' : Script) (r : Ref), r ∈ collectRefs s' →
      r ∈ collectRefs (U.foldl (repairOne pick closure) s') := by
  intro U
  induction U with
  | nil => intro s' r hr; exact hr
  | cons u t ih =>
    intro s' r hr
    exact ih (repairOne pick closure s' u) r (collectRefs_repairOne_superset hr)

/-- The repair fold adds only refs targeting ids of its work list, so it
preserves overall validity. -/
theorem repairFold_valid {ids : List String} {pick : String → List String → String}
    {closure : List String} :
    ∀ (U : List String) (s' : Script),
      (∀ r ∈ collectRefs s', refValid ids r) → (∀ u ∈ U, u ∈ ids) →
      ∀ r ∈ collectRefs (U.foldl (repairOne pick closure) s'), refValid ids r := by
  intro U
  induction U with
  | nil => intro s' hv _ r hr; exact hv r hr
  | cons u t ih =>
    intro s' hv hU r hr
    refine ih (repairOne pick closure s' u) ?_
      (fun u' hu' => hU u' (List.mem_cons_of_mem u hu')) r hr
    intro r' hr'
    rcases collectRefs_repairOne_sub hr' with h | h
    · exact hv r' h
    · right
      rw [h]
      exact hU u (List.mem_cons_self u t)

/-! ### Claim C1 -/

/-- C1: after `validate_and_fix_scene_connections` returns, every choice of
every dialogue entry of every scene has `nextScene` equal to the sentinel
`"exit"` or to the id of a scene present in the returned script's scene
list — zero dangling references — for every input script whose scenes list
is non-empty and every behaviour of the random source picker. -/
theorem c1_no_dangling (pick : String → List String → String) (s out : Script)
    (hne : s.scenes ≠ [])
    (hok : validate_and_fix_scene_connections pick s = .ok out) :
    ∀ sc ∈ out.scenes, ∀ d ∈ sc.dialogue, ∀ cs, d.choices = some cs → ∀ c ∈ cs,
      c.nextScene = "exit" ∨ c.nextScene ∈ sceneIds out := by
  have hids : sceneIds s ≠ [] := by
    unfold sceneIds
    intro h
    exact hne (List.map_eq_nil_iff.mp h)
  simp only [validate_and_fix_scene_connections] at hok
  split at hok
  · exact absurd hok (by simp)
  · rename_i seeds hseeds
    simp only [Except.ok.injEq] at hok
    intro sc hsc d hd cs hcs c hc
    have hr := ref_of_choice_script hsc hd hcs hc
    rw [← hok] at hr
    have hvalid : refValid (sceneIds s)
        { source := sc.id, text := c.text, target := c.nextScene } := by
      refine repairFold_valid _ _ ?_ ?_ _ hr
      · refine fixRefs_valid hids _ s ?_ ?_
        · intro r0 hr0
          exact (List.mem_filter.mp hr0).2
        · intro r' hr'
          by_cases hv : r'.target = "exit" ∨ r'.target ∈ sceneIds s
          · exact Or.inl hv
          · exact Or.inr (List.mem_filter.mpr ⟨hr', invalidTarget_iff.mpr hv⟩)
      · intro u hu
        exact List.mem_of_mem_filter hu
    have hidsout : sceneIds out = sceneIds s := by
      rw [← hok, sceneIds_repairFold, sceneIds_fixRefs]
    rcases hvalid with h | h
    · exact Or.inl h
    · right
      rw [hidsout]
      exact h

/-- C1, witness: the theorem applied to a concrete script carrying a
dangling reference. -/
theorem c1_witness :
    ∃ out, validate_and_fix_scene_connections pickHead wC1 = Except.ok out ∧
      ∀ sc ∈ out.scenes, ∀ d ∈ sc.dialogue, ∀ cs, d.choices = some cs → ∀ c ∈ cs,
        c.nextScene = "exit" ∨ c.nextScene ∈ sceneIds out :=
  ⟨_, rfl, c1_no_dangling pickHead wC1 _ (by decide) rfl⟩

/-- `pickHead` satisfies the `random.choice` membership contract. -/
theorem pickHead_mem (sid : String) (l : List String) (hl : l ≠ []) :
    pickHead sid l ∈ l := by
  unfold pickHead
  cases l with
  | nil => exact absurd rfl hl
  | cons a t => exact List.mem_cons_self a t

/-- One closure pass only adds elements. -/
theorem expandOnce_superset (refs : List Ref) :
    ∀ (R : List String) (x : String), x ∈ R → x ∈ expandOnce refs R := by
  unfold expandOnce
  induction refs with
  | nil => intro R x hx; exact hx
  | cons r t ih =>
    intro R x hx
    rw [List.foldl_cons]
    refine ih _ x ?_
    split
    · exact List.mem_append.mpr (Or.inl hx)
    · exact hx

/-- The computed closure contains its seeds. -/
theorem computeReachable_superset (refs : List Ref) (seeds : List String)
    (x : String) (hx : x ∈ seeds) : x ∈ computeReachable refs seeds := by
  unfold computeReachable
  generalize refs.length + 1 = n
  induction n generalizing seeds with
  | zero => exact hx
  | succ n ih =>
    rw [Function.iterate_succ_apply]
    exact ih (expandOnce refs seeds) (expandOnce_superset refs seeds x hx)

/-- One closure pass is sound for `ReachableFrom`. -/
theorem expandOnce_sound {refs : List Ref} {seeds : List String} :
    ∀ (l : List Ref) (R : List String), (∀ r ∈ l, r ∈ refs) →
      (∀ x ∈ R, ReachableFrom refs seeds x) →
      ∀ x ∈ l.foldl (fun R r =>
          if R.contains r.source && r.target != "exit" && !(R.contains r.target) then
            R ++ [r.target]
          else R) R,
        ReachableFrom refs seeds x := by
  intro l
  induction l with
  | nil => intro R _ hR x hx; exact hR x hx
  | cons r t ih =>
    intro R hl hR x hx
    rw [List.foldl_cons] at hx
    refine ih _ (fun r' hr' => hl r' (List.mem_cons_of_mem r hr')) ?_ x hx
    intro y hy
    split at hy
    · rename_i hcond
      rcases List.mem_append.mp hy with hy' | hy'
      · exact hR y hy'
      · simp only [List.mem_singleton] at hy'
        subst hy'
        simp only [Bool.and_assoc, Bool.and_eq_true] at hcond
        refine ReachableFrom.step r (hR r.source (by simpa using hcond.1)) ?_ ?_
        · exact hl r (List.mem_cons_self r t)
        · simpa using hcond.2.1
    · exact hR y hy

/-- The computed closure is sound for `ReachableFrom`. -/
theorem computeReachable_sound {refs : List Ref} {seeds : List String} :
    ∀ x ∈ computeReachable refs seeds, ReachableFrom refs seeds x := by
  unfold computeReachable
  generalize refs.length + 1 = n
  intro x hx
  induction n generalizing x with
  | zero => exact ReachableFrom.seed hx
  | succ n ih =>
    rw [Function.iterate_succ_apply'] at hx
    revert hx
    refine expandOnce_sound refs _ (fun r hr => hr) ?_ x
    intro y hy
    exact ih y hy

/-- Reachability transfers to a superset ref list that keeps every ref with
a real (scene-id) target, as long as sources are scene ids. -/
theorem reachable_transfer {ids : List String} {refs refs' : List Ref}
    {seeds : List String} (hsrc : ∀ r ∈ refs, r.source ∈ ids)
    (hkeep : ∀ r ∈ refs, r.target ∈ ids → r ∈ refs') {x : String}
    (h : ReachableFrom refs seeds x) : x ∈ ids → ReachableFrom refs' seeds x := by
  induction h with
  | seed hs => exact fun _ => ReachableFrom.seed hs
  | step r hre hr hne ih =>
    intro hx
    exact ReachableFrom.step r (ih (hsrc r hr)) (hkeep r hr hx) hne

/-- A `Forall₂` witness for a left member. -/
theorem forall2_mem_left {α β : Type} {R : α → β → Prop} :
    ∀ {l : List α} {l' : List β}, List.Forall₂ R l l' → ∀ a ∈ l, ∃ b ∈ l', R a b := by
  intro l l' h
  induction h with
  | nil => intro a ha; simp at ha
  | cons hab htl ih =>
    intro a ha
    rcases List.mem_cons.mp ha with rfl | ha'
    · exact ⟨_, List.mem_cons_self _ _, hab⟩
    · rcases ih a ha' with ⟨b, hb, hab'⟩
      exact ⟨b, List.mem_cons_of_mem _ hb, hab'⟩

/-- `applyFix` keeps the existence of a choice-bearing dialogue entry in
every scene. -/
theorem hasChoices_applyFix (ids : List String) (s : Script) (r0 : Ref)
    (h : ∀ sc ∈ s.scenes, ∃ d ∈ sc.dialogue, d.choices.isSome = true) :
    ∀ sc ∈ (applyFix ids s r0).scenes, ∃ d ∈ sc.dialogue, d.choices.isSome = true := by
  intro sc' hsc'
  unfold applyFix at hsc'
  dsimp only at hsc'
  rcases List.mem_map.mp hsc' with ⟨sc, hsc, rfl⟩
  split
  · rcases h sc hsc with ⟨d, hd, hds⟩
    refine ⟨_, List.mem_map.mpr ⟨d, hd, rfl⟩, ?_⟩
    simpa using hds
  · exact h sc hsc

/-- `fixRefs` keeps the existence of a choice-bearing dialogue entry. -/
theorem hasChoices_fixRefs (ids : List String) :
    ∀ (L : List Ref) (s : Script),
      (∀ sc ∈ s.scenes, ∃ d ∈ sc.dialogue, d.choices.isSome = true) →
      ∀ sc ∈ (fixRefs ids L s).scenes, ∃ d ∈ sc.dialogue, d.choices.isSome = true := by
  intro L
  induction L with
  | nil => intro s h; exact h
  | cons r0 t ih =>
    intro s h
    exact ih (applyFix ids s r0) (hasChoices_applyFix ids s r0 h)

/-- `repairOne` keeps the existence of a choice-bearing dialogue entry. -/
theorem hasChoices_repairOne (pick : String → List String → String)
    (closure : List String) (s : Script) (sid : String)
    (h : ∀ sc ∈ s.scenes, ∃ d ∈ sc.dialogue, d.choices.isSome = true) :
    ∀ sc ∈ (repairOne pick closure s sid).scenes,
      ∃ d ∈ sc.dialogue, d.choices.isSome = true := by
  intro sc' hsc'
  unfold repairOne at hsc'
  dsimp only at hsc'
  rcases List.mem_map.mp hsc' with ⟨sc, hsc, rfl⟩
  split
  · rcases h sc hsc with ⟨d, hd, hds⟩
    rcases forall2_mem_left (appendChoiceCore_rel _ sc.dialogue) d hd with ⟨d', hd', hrel⟩
    refine ⟨d', hd', ?_⟩
    rcases hrel with rfl | ⟨cs, hcs, rfl⟩
    · exact hds
    · simp
  · exact h sc hsc

/-- When the repaired id is on the work list and the picked source is a
scene with a choice-bearing entry, the repair fold records the new edge. -/
theorem repairFold_adds (pick : String → List String → String)
    (closure : List String) (ids : List String) :
    ∀ (U : List String) (s' : Script) (sid : String), sid ∈ U →
      sceneIds s' = ids →
      (∀ sc ∈ s'.scenes, ∃ d ∈ sc.dialogue, d.choices.isSome = true) →
      pick sid closure ∈ ids →
      ({ source := pick sid closure, text := "Explore a different path",
         target := sid } : Ref)
        ∈ collectRefs (U.foldl (repairOne pick closure) s') := by
  intro U
  induction U with
  | nil => intro s' sid h; simp at h
  | cons u t ih =>
    intro s' sid hmem hids hch hp
    rw [List.foldl_cons]
    rcases List.mem_cons.mp hmem with rfl | hsidt
    · refine collectRefs_repairFold_superset t _ _ ?_
      refine collectRefs_repairOne_adds ?_
      have : pick sid closure ∈ sceneIds s' := by rw [hids]; exact hp
      rcases List.mem_map.mp this with ⟨sc, hsc, hid⟩
      exact ⟨sc, hsc, hid, hch sc hsc⟩
    · refine ih (repairOne pick closure s' u) sid hsidt ?_ ?_ hp
      · rw [sceneIds_repairOne, hids]
      · exact hasChoices_repairOne pick closure s' u hch

/-- The seed list is never empty. -/
theorem seedsOf_ne_nil {ids : List String} {seeds : List String}
    (h : seedsOf ids = some seeds) : seeds ≠ [] := by
  unfold seedsOf at h
  split at h
  · simp only [Option.some.injEq] at h
    rw [← h]
    simp
  · split at h
    · simp at h
    · simp only [Option.some.injEq] at h
      rw [← h]
      simp

/-- Over an empty ref list, only seeds are reachable. -/
theorem not_reachableFrom_nil {seeds : List String} {x : String}
    (h : ReachableFrom [] seeds x) : x ∈ seeds := by
  cases h with
  | seed hs => exact hs
  | step r hre hr hne => simp at hr

/-! ### Claim C2 -/

/-- C2, counterexample: for the two-scene script `cexC2` (entry `scene_1`,
no choice-bearing dialogue anywhere), `validate_and_fix_scene_connections`
returns the script unchanged: the unreachable `scene_X` gets no inbound
edge, because the reachability repair can only append to a dialogue entry
that already carries a choices list (and the picked source may even be the
phantom seed `scene_intro`).  So `scene_X` is not the entry id (`scene_intro`
is absent, the designated entry is `scene_1`) and is not reachable from it
via forward non-exit choice edges. -/
theorem c2_counterexample :
    validate_and_fix_scene_connections pickHead cexC2 = Except.ok cexC2 ∧
    "scene_X" ∈ sceneIds cexC2 ∧
    "scene_X" ≠ "scene_1" ∧
    ¬ ("scene_intro" ∈ sceneIds cexC2) ∧
    ¬ ReachableFrom (collectRefs cexC2) ["scene_1"] "scene_X" := by
  refine ⟨by decide, by decide, by decide, by decide, ?_⟩
  intro h
  have hrefs : collectRefs cexC2 = [] := by decide
  rw [hrefs] at h
  have := not_reachableFrom_nil h
  simp at this

/-- C2 (amended): after `validate_and_fix_scene_connections` returns,
every scene id is reachable from the entry seed set (`scene_intro` and
`scene_1` when at least one of them is a scene id, else the first scene)
via forward non-`"exit"` choice edges — provided no scene is named
`"exit"`, every scene carries a dialogue entry with a choices list, the
random picker returns an element of its argument, and the reachable
closure the code computes (over the pre-repair refs, phantom seeds
included) contains only real scene ids. -/
theorem c2_amended (pick : String → List String → String) (s out : Script)
    (seeds : List String)
    (hpick : ∀ sid l, l ≠ [] → pick sid l ∈ l)
    (hexit : ¬ "exit" ∈ sceneIds s)
    (hch : ∀ sc ∈ s.scenes, ∃ d ∈ sc.dialogue, d.choices.isSome = true)
    (hseeds : seedsOf (sceneIds s) = some seeds)
    (hreal : ∀ x ∈ computeReachable (collectRefs s) seeds, x ∈ sceneIds s)
    (hok : validate_and_fix_scene_connections pick s = .ok out) :
    ∀ sid ∈ sceneIds out, ReachableFrom (collectRefs out) seeds sid := by
  simp only [validate_and_fix_scene_connections] at hok
  split at hok
  · rename_i hnone
    rw [hseeds] at hnone
    simp at hnone
  · rename_i seeds' hsome
    rw [hseeds] at hsome
    simp only [Option.some.injEq] at hsome
    subst hsome
    simp only [Except.ok.injEq] at hok
    have hinvalid : ∀ r0 ∈ (collectRefs s).filter
        (fun r => invalidTarget (sceneIds s) r.target),
        invalidTarget (sceneIds s) r0.target = true :=
      fun r0 hr0 => (List.mem_filter.mp hr0).2
    have hkeep : ∀ r ∈ collectRefs s, r.target ∈ sceneIds s → r ∈ collectRefs out := by
      intro r hr htgt
      rw [← hok]
      exact collectRefs_repairFold_superset _ _ _
        (fixRefs_keeps _ s hinvalid r hr htgt)
    have hsrc : ∀ r ∈ collectRefs s, r.source ∈ sceneIds s :=
      fun r hr => mem_collectRefs_source hr
    have hCreach : ∀ x ∈ computeReachable (collectRefs s) seeds, x ∈ sceneIds s →
        ReachableFrom (collectRefs out) seeds x :=
      fun x hx hxid => reachable_transfer hsrc hkeep (computeReachable_sound x hx) hxid
    have hidsout : sceneIds out = sceneIds s := by
      rw [← hok, sceneIds_repairFold, sceneIds_fixRefs]
    intro sid hsid
    rw [hidsout] at hsid
    by_cases hC : sid ∈ computeReachable (collectRefs s) seeds
    · exact hCreach sid hC hsid
    · have hCne : computeReachable (collectRefs s) seeds ≠ [] := by
        intro hnil
        rcases List.exists_mem_of_ne_nil seeds (seedsOf_ne_nil hseeds) with ⟨a, ha⟩
        have := computeReachable_superset (collectRefs s) seeds a ha
        rw [hnil] at this
        simp at this
      have hp := hpick sid _ hCne
      have hpid := hreal _ hp
      have hadded := repairFold_adds pick (computeReachable (collectRefs s) seeds)
        (sceneIds s)
        ((sceneIds s).filter (fun i => !(computeReachable (collectRefs s) seeds).contains i))
        (fixRefs (sceneIds s)
          ((collectRefs s).filter (fun r => invalidTarget (sceneIds s) r.target)) s)
        sid (List.mem_filter.mpr ⟨hsid, by simp [hC]⟩)
        (by rw [sceneIds_fixRefs])
        (hasChoices_fixRefs _ _ s hch) hpid
      rw [hok] at hadded
      have hpreach := hCreach _ hp hpid
      have hne' : sid ≠ "exit" := fun h => hexit (h ▸ hsid)
      exact ReachableFrom.step
        { source := pick sid (computeReachable (collectRefs s) seeds),
          text := "Explore a different path", target := sid }
        hpreach hadded hne'

/-- C2, witness: the amended theorem applied to a concrete script whose
scene `scene_B` is unreachable and gets repaired. -/
theorem c2_witness :
    ∃ out, validate_and_fix_scene_connections pickHead wC2 = Except.ok out ∧
      ∀ sid ∈ sceneIds out,
        ReachableFrom (collectRefs out) ["scene_intro", "scene_1"] sid :=
  ⟨_, rfl, c2_amended pickHead wC2 _ ["scene_intro", "scene_1"]
    pickHead_mem (by decide) (by decide) (by decide) (by decide) rfl⟩

/-! ### Frame lemmas for the validator (claim C10) -/

/-- Pointwise `Forall₂` against a map of the same list. -/
theorem forall2_map_self {α β : Type} {R : α → β → Prop} {f : α → β} :
    ∀ {l : List α}, (∀ a ∈ l, R a (f a)) → List.Forall₂ R l (l.map f) := by
  intro l
  induction l with
  | nil => intro _; exact List.Forall₂.nil
  | cons a t ih =>
    intro h
    exact List.Forall₂.cons (h a (List.mem_cons_self a t))
      (ih (fun a' ha' => h a' (List.mem_cons_of_mem a ha')))

/-- Composition of two `Forall₂`s along a relation composition. -/
theorem forall2_comp {α β γ : Type} {R : α → β → Prop} {S : β → γ → Prop}
    {T : α → γ → Prop} (h : ∀ a b c, R a b → S b c → T a c) :
    ∀ {l1 : List α} {l2 : List β} {l3 : List γ},
      List.Forall₂ R l1 l2 → List.Forall₂ S l2 l3 → List.Forall₂ T l1 l3 := by
  intro l1 l2 l3 h12
  induction h12 generalizing l3 with
  | nil =>
    intro h23
    cases h23
    exact List.Forall₂.nil
  | cons hab htl ih =>
    intro h23
    cases h23 with
    | cons hbc htl' => exact List.Forall₂.cons (h _ _ _ hab hbc) (ih htl')

/-- Transitivity of `Forall₂` for a transitive relation. -/
theorem forall2_trans {α : Type} {R : α → α → Prop}
    (htrans : ∀ a b c, R a b → R b c → R a c) :
    ∀ {l1 l2 l3 : List α},
      List.Forall₂ R l1 l2 → List.Forall₂ R l2 l3 → List.Forall₂ R l1 l3 :=
  forall2_comp htrans

/-- `choiceFrame` is reflexive. -/
theorem choiceFrame_refl (ids : List String) (c : Choice) : choiceFrame ids c c :=
  ⟨rfl, Or.inl rfl⟩

/-- `entryFix` is reflexive. -/
theorem entryFix_refl (ids : List String) (d : DialogueEntry) : entryFix ids d d := by
  refine ⟨rfl, rfl, rfl, ?_⟩
  cases d.choices with
  | none => trivial
  | some cs => exact ⟨rfl, List.forall₂_same.mpr (fun c _ => choiceFrame_refl ids c)⟩

/-- `sceneFix` is reflexive. -/
theorem sceneFix_refl (ids : List String) (sc : Scene) : sceneFix ids sc sc :=
  ⟨rfl, rfl, rfl, rfl, List.forall₂_same.mpr (fun d _ => entryFix_refl ids d)⟩

/-- `choiceFrame` is transitive. -/
theorem choiceFrame_trans (ids : List String) (c c' c'' : Choice)
    (h1 : choiceFrame ids c c') (h2 : choiceFrame ids c' c'') :
    choiceFrame ids c c'' := by
  obtain ⟨ht1, hn1⟩ := h1
  obtain ⟨ht2, hn2⟩ := h2
  refine ⟨ht2.trans ht1, ?_⟩
  rcases hn1 with h | h
  · rcases hn2 with h' | h'
    · exact Or.inl (h'.trans h)
    · exact Or.inr (by rw [← h]; exact h')
  · exact Or.inr h

/-- `entryFix` is transitive. -/
theorem entryFix_trans (ids : List String) (d d' d'' : DialogueEntry)
    (h1 : entryFix ids d d') (h2 : entryFix ids d' d'') : entryFix ids d d'' := by
  obtain ⟨hs1, ht1, hc1, hm1⟩ := h1
  obtain ⟨hs2, ht2, hc2, hm2⟩ := h2
  refine ⟨hs2.trans hs1, ht2.trans ht1, hc2.trans hc1, ?_⟩
  cases hdc : d.choices with
  | none =>
    rw [hdc] at hm1
    cases hdc' : d'.choices with
    | none =>
      rw [hdc'] at hm2
      cases hdc'' : d''.choices with
      | none => trivial
      | some cs'' => rw [hdc''] at hm2; exact ((hm2 : False)).elim
    | some cs' => rw [hdc'] at hm1; exact ((hm1 : False)).elim
  | some cs =>
    rw [hdc] at hm1
    cases hdc' : d'.choices with
    | none => rw [hdc'] at hm1; exact ((hm1 : False)).elim
    | some cs' =>
      rw [hdc'] at hm1 hm2
      cases hdc'' : d''.choices with
      | none => rw [hdc''] at hm2; exact ((hm2 : False)).elim
      | some cs'' =>
        rw [hdc''] at hm2
        obtain ⟨hl1, hf1⟩ := hm1
        obtain ⟨hl2, hf2⟩ := hm2
        exact ⟨hl1.trans hl2,
          forall2_trans (choiceFrame_trans ids) hf1 hf2⟩

/-- `sceneFix` is transitive. -/
theorem sceneFix_trans (ids : List String) (sc sc' sc'' : Scene)
    (h1 : sceneFix ids sc sc') (h2 : sceneFix ids sc' sc'') :
    sceneFix ids sc sc'' := by
  obtain ⟨a1, b1, c1, d1, e1⟩ := h1
  obtain ⟨a2, b2, c2, d2, e2⟩ := h2
  exact ⟨a2.trans a1, b2.trans b1, c2.trans c1, d2.trans d1,
    forall2_trans (entryFix_trans ids) e1 e2⟩

/-- One `applyFix` pass stays within the phase-one frame. -/
theorem sceneFix_applyFix (ids : List String) (s : Script) (r0 : Ref)
    (hinv : invalidTarget ids r0.target = true) :
    List.Forall₂ (sceneFix ids) s.scenes (applyFix ids s r0).scenes := by
  unfold applyFix
  dsimp only
  refine forall2_map_self ?_
  intro sc _
  by_cases hid : (sc.id == r0.source) = true
  · rw [if_pos hid]
    refine ⟨rfl, rfl, rfl, rfl, ?_⟩
    refine forall2_map_self ?_
    intro d _
    refine ⟨rfl, rfl, rfl, ?_⟩
    cases hdc : d.choices with
    | none => trivial
    | some cs =>
      dsimp only [Option.map]
      refine ⟨by rw [List.length_map], ?_⟩
      refine forall2_map_self ?_
      intro c _
      unfold fixChoice
      by_cases hc : (c.text == r0.text && c.nextScene == r0.target) = true
      · rw [if_pos hc]
        refine ⟨rfl, Or.inr ?_⟩
        have htg : c.nextScene = r0.target := by
          have := (Bool.and_eq_true _ _).mp hc
          simpa using this.2
        rw [htg]
        rw [invalidTarget_iff] at hinv
        exact ⟨fun h => hinv (Or.inl h), fun h => hinv (Or.inr h)⟩
      · rw [if_neg hc]
        exact choiceFrame_refl ids c
  · rw [if_neg hid]
    exact sceneFix_refl ids sc

/-- The whole reference-repair fold stays within the phase-one frame. -/
theorem sceneFix_fixRefs (ids : List String) :
    ∀ (L : List Ref) (s : Script),
      (∀ r0 ∈ L, invalidTarget ids r0.target = true) →
      List.Forall₂ (sceneFix ids) s.scenes (fixRefs ids L s).scenes := by
  intro L
  induction L with
  | nil =>
    intro s _
    exact List.forall₂_same.mpr (fun sc _ => sceneFix_refl ids sc)
  | cons r0 t ih =>
    intro s hL
    refine forall2_trans (sceneFix_trans ids)
      (sceneFix_applyFix ids s r0 (hL r0 (List.mem_cons_self r0 t))) ?_
    exact ih (applyFix ids s r0) (fun r' hr' => hL r' (List.mem_cons_of_mem r0 hr'))

/-- `entryApp` is reflexive. -/
theorem entryApp_refl (d : DialogueEntry) : entryApp d d := by
  refine ⟨rfl, rfl, rfl, ?_⟩
  cases d.choices with
  | none => trivial
  | some cs => exact ⟨[], by simp⟩

/-- `sceneApp` is reflexive. -/
theorem sceneApp_refl (sc : Scene) : sceneApp sc sc :=
  ⟨rfl, rfl, rfl, rfl, List.forall₂_same.mpr (fun d _ => entryApp_refl d)⟩

/-- `entryApp` is transitive. -/
theorem entryApp_trans (d d' d'' : DialogueEntry)
    (h1 : entryApp d d') (h2 : entryApp d' d'') : entryApp d d'' := by
  obtain ⟨hs1, ht1, hc1, hm1⟩ := h1
  obtain ⟨hs2, ht2, hc2, hm2⟩ := h2
  refine ⟨hs2.trans hs1, ht2.trans ht1, hc2.trans hc1, ?_⟩
  cases hdc : d.choices with
  | none =>
    rw [hdc] at hm1
    cases hdc' : d'.choices with
    | none =>
      rw [hdc'] at hm2
      cases hdc'' : d''.choices with
      | none => trivial
      | some cs'' => rw [hdc''] at hm2; exact ((hm2 : False)).elim
    | some cs' => rw [hdc'] at hm1; exact ((hm1 : False)).elim
  | some cs =>
    rw [hdc] at hm1
    cases hdc' : d'.choices with
    | none => rw [hdc'] at hm1; exact ((hm1 : False)).elim
    | some cs' =>
      rw [hdc'] at hm1 hm2
      cases hdc'' : d''.choices with
      | none => rw [hdc''] at hm2; exact ((hm2 : False)).elim
      | some cs'' =>
        rw [hdc''] at hm2
        obtain ⟨e1, he1⟩ := hm1
        obtain ⟨e2, he2⟩ := hm2
        exact ⟨e1 ++ e2, by rw [he2, he1, List.append_assoc]⟩

/-- `sceneApp` is transitive. -/
theorem sceneApp_trans (sc sc' sc'' : Scene)
    (h1 : sceneApp sc sc') (h2 : sceneApp sc' sc'') : sceneApp sc sc'' := by
  obtain ⟨a1, b1, c1, d1, e1⟩ := h1
  obtain ⟨a2, b2, c2, d2, e2⟩ := h2
  exact ⟨a2.trans a1, b2.trans b1, c2.trans c1, d2.trans d1,
    forall2_trans (fun a b c => entryApp_trans a b c) e1 e2⟩

/-- `repairOne` stays within the phase-two frame. -/
theorem sceneApp_repairOne (pick : String → List String → String)
    (closure : List String) (s : Script) (sid : String) :
    List.Forall₂ sceneApp s.scenes (repairOne pick closure s sid).scenes := by
  unfold repairOne
  dsimp only
  refine forall2_map_self ?_
  intro sc _
  by_cases hid : (sc.id == pick sid closure) = true
  · rw [if_pos hid]
    refine ⟨rfl, rfl, rfl, rfl, ?_⟩
    refine List.Forall₂.imp ?_ (appendChoiceCore_rel _ sc.dialogue)
    intro d d' hrel
    rcases hrel with rfl | ⟨cs, hcs, rfl⟩
    · exact entryApp_refl _
    · refine ⟨rfl, rfl, rfl, ?_⟩
      rw [hcs]
      exact ⟨_, rfl⟩
  · rw [if_neg hid]
    exact sceneApp_refl sc

/-- The reachability-repair fold stays within the phase-two frame. -/
theorem sceneApp_repairFold (pick : String → List String → String)
    (closure : List String) :
    ∀ (U : List String) (s : Script),
      List.Forall₂ sceneApp s.scenes ((U.foldl (repairOne pick closure) s)).scenes := by
  intro U
  induction U with
  | nil =>
    intro s
    exact List.forall₂_same.mpr (fun sc _ => sceneApp_refl sc)
  | cons u t ih =>
    intro s
    exact forall2_trans (fun a b c => sceneApp_trans a b c)
      (sceneApp_repairOne pick closure s u) (ih (repairOne pick closure s u))

/-- Phase one followed by phase two lands in the claimed frame. -/
theorem sceneFrame_of_fix_app (ids : List String) (sc sc' sc'' : Scene)
    (h1 : sceneFix ids sc sc') (h2 : sceneApp sc' sc'') :
    sceneFrame ids sc sc'' := by
  obtain ⟨a1, b1, c1, d1, e1⟩ := h1
  obtain ⟨a2, b2, c2, d2, e2⟩ := h2
  refine ⟨a2.trans a1, b2.trans b1, c2.trans c1, d2.trans d1, ?_⟩
  refine forall2_comp ?_ e1 e2
  intro d d' d'' hfix happ
  obtain ⟨hs1, ht1, hc1, hm1⟩ := hfix
  obtain ⟨hs2, ht2, hc2, hm2⟩ := happ
  refine ⟨hs2.trans hs1, ht2.trans ht1, hc2.trans hc1, ?_⟩
  cases hdc : d.choices with
  | none =>
    rw [hdc] at hm1
    cases hdc' : d'.choices with
    | none =>
      rw [hdc'] at hm2
      cases hdc'' : d''.choices with
      | none => trivial
      | some cs'' => rw [hdc''] at hm2; exact ((hm2 : False)).elim
    | some cs' => rw [hdc'] at hm1; exact ((hm1 : False)).elim
  | some cs =>
    rw [hdc] at hm1
    cases hdc' : d'.choices with
    | none => rw [hdc'] at hm1; exact ((hm1 : False)).elim
    | some cs' =>
      rw [hdc'] at hm1 hm2
      cases hdc'' : d''.choices with
      | none => rw [hdc''] at hm2; exact ((hm2 : False)).elim
      | some cs'' =>
        rw [hdc''] at hm2
        obtain ⟨hl1, hf1⟩ := hm1
        obtain ⟨extra, hex⟩ := hm2
        refine ⟨by rw [hex, List.length_append, ← hl1]; omega, ?_⟩
        have : cs''.take cs.length = cs' := by
          rw [hex, hl1]
          exact List.take_left cs' extra
        rw [this]
        exact hf1

/-! ### Claim C10 -/

/-- C10, counterexample: the claim quantifies over every input script, but
on the empty script `validate_and_fix_scene_connections` raises
`StopIteration` (the entry-seed computation evaluates `next(iter(set()))`),
so there is no output at all, let alone one with the same scenes. -/
theorem c10_counterexample :
    validate_and_fix_scene_connections pickHead emptyScript
      = Except.error PyErr.stopIter := by
  decide

/-- C10 (amended): whenever `validate_and_fix_scene_connections` returns a
script (it does for every input with at least one scene; on the empty
script it raises `StopIteration`), the output has the same scenes in the
same order — same id, background, character list and provenance tag per
scene, dialogue entries pointwise with speaker, text and character
unchanged — no choice is deleted, the only mutations are rewriting the
`nextScene` of choices whose target was invalid (neither `"exit"` nor a
scene id) and appending new choices to dialogue entries that already carry
a choices list. -/
theorem c10_frame (pick : String → List String → String) (s out : Script)
    (hok : validate_and_fix_scene_connections pick s = .ok out) :
    List.Forall₂ (sceneFrame (sceneIds s)) s.scenes out.scenes := by
  simp only [validate_and_fix_scene_connections] at hok
  split at hok
  · exact absurd hok (by simp)
  · rename_i seeds hseeds
    simp only [Except.ok.injEq] at hok
    have h1 := sceneFix_fixRefs (sceneIds s)
      ((collectRefs s).filter (fun r => invalidTarget (sceneIds s) r.target)) s
      (fun r0 hr0 => (List.mem_filter.mp hr0).2)
    have h2 := sceneApp_repairFold pick (computeReachable (collectRefs s) seeds)
      ((sceneIds s).filter
        (fun i => !(computeReachable (collectRefs s) seeds).contains i))
      (fixRefs (sceneIds s)
        ((collectRefs s).filter (fun r => invalidTarget (sceneIds s) r.target)) s)
    rw [hok] at h2
    exact forall2_comp (sceneFrame_of_fix_app (sceneIds s)) h1 h2

/-- C10, witness: the frame theorem applied to a concrete script with one
dangling reference. -/
theorem c10_witness :
    ∃ out, validate_and_fix_scene_connections pickHead wC1 = Except.ok out ∧
      List.Forall₂ (sceneFrame (sceneIds wC1)) wC1.scenes out.scenes :=
  ⟨_, rfl, c10_frame pickHead wC1 _ rfl⟩
